import Mathlib

/-!
# Pydio Cells: scheduler job store helpers, migration, chat room deletion, first run

A shallow embedding of

* `scheduler/jobs/dao.go`: `NewDAO`, `stripTaskData`, `stripTaskMessage`, `Migrate`;
* `broker/chat/grpc/handler.go`: `ChatHandler.DeleteRoom`;
* `idm/workspace/rest/first-run.go`: `FirstRun`, `createWs`.

Conventions of the embedding.

* A Go pointer that may be nil is an `Option`; a slice of pointers is a `List` of `Option`s.
* A Go function that can panic on a nil dereference, or block forever on a channel,
  returns an `Option`: `none` means that the call does not return.
* Code that mutates its argument in place returns the mutated value.
* Calls on a storage backend are explicit state passing over the backend's state.
-/

namespace Cells

/-! ## Data model -/

/-- Modelled from the spec: the generated declaration of `tree.Node` is not among the
sources. `Uuid` and `Path` are the two fields the code names; the other fields stand for the
metadata a freshly produced node carries. A Go composite literal leaves every field it does
not name at its zero value, which is what the defaults express. -/
structure Node where
  Uuid : String := ""
  Path : String := ""
  Size : Int := 0
  MTime : Int := 0
  Mode : Int := 0
  Etag : String := ""
  Commits : List String := []
  MetaStore : List (String × String) := []
  AppearsIn : List String := []
deriving DecidableEq, Repr

/-- Modelled from the spec: the generated declaration of `idm.User` is not among the sources.
`Uuid`, `Login`, `GroupPath`, `GroupLabel` and `IsGroup` are the fields the code names; the
other fields stand for the full profile (attributes, roles, password, policies). -/
structure User where
  Uuid : String := ""
  GroupPath : String := ""
  Attributes : List (String × String) := []
  Roles : List String := []
  Login : String := ""
  Password : String := ""
  OldPassword : String := ""
  IsGroup : Bool := false
  GroupLabel : String := ""
  LastConnected : Int := 0
  Policies : List String := []
  PoliciesContextEditable : Bool := false
deriving DecidableEq, Repr

/-- Modelled from the spec: the generated declaration of `activity.Object` is not among the
sources. `Id` is the field the code names; the other fields stand for the activity body. -/
structure Object where
  Id : String := ""
  Kind : String := ""
  Name : String := ""
  Summary : String := ""
  Markdown : String := ""
  Content : String := ""
  Items : List String := []
deriving DecidableEq, Repr

/-- Modelled from the spec: the generated declaration of `jobs.ActionMessage` is not among
the sources. `Nodes`, `Users` and `Activities` are the three slices of pointers the code
walks; `Event` and `OutputChain` stand for the fields the code never touches. -/
structure ActionMessage where
  Event : String := ""
  Nodes : List (Option Node) := []
  Users : List (Option User) := []
  Activities : List (Option Object) := []
  OutputChain : List String := []
deriving DecidableEq, Repr

/-- Modelled from the spec: the generated declaration of `jobs.ActionLog` is not among the
sources. `InputMessage` and `OutputMessage` are pointers that may be nil. -/
structure ActionLog where
  ActionID : String := ""
  InputMessage : Option ActionMessage := none
  OutputMessage : Option ActionMessage := none
deriving DecidableEq, Repr

/-- Modelled from the spec: the values of `jobs.TaskStatus`; the declaration is not among the
sources. `Unknown` is the zero value, the others are the statuses the spec names; `Any` is
the wildcard `jobs.TaskStatus_Any` that `Migrate` passes to `ListJobs`. -/
inductive TaskStatus where
  | Unknown
  | Any
  | Running
  | Finished
  | Error
  | Queued
deriving DecidableEq, Repr

/-- Modelled from the spec: the generated declaration of `jobs.Task` is not among the
sources. `ActionsLogs` is the slice of `*ActionLog` the code walks. -/
structure Task where
  ID : String := ""
  JobID : String := ""
  Status : TaskStatus := TaskStatus.Unknown
  StatusMessage : String := ""
  ActionsLogs : List (Option ActionLog) := []
deriving DecidableEq, Repr

/-- Modelled from the spec: the generated declaration of `jobs.Job` is not among the
sources. `Tasks` is the slice `Migrate` reads; `Migrate` only takes its length and hands
each element on to `PutTask`, it never looks inside a task. -/
structure Job where
  ID : String := ""
  Label : String := ""
  Owner : String := ""
  Tasks : List Task := []
deriving DecidableEq, Repr

/-! ## Log redaction: `stripTaskMessage` and `stripTaskData` -/

/-- The loop `for i, x := range xs { xs[i] = &T{...} }` over a slice of pointers: every
entry is replaced by `f` of the entry it held. Reading a field of a nil entry panics, which
ends the call (`none`). -/
def rangeReplace {α : Type} (f : α → α) : List (Option α) → Option (List (Option α))
  | [] => some []
  | none :: _ => none
  | some x :: rest =>
    match rangeReplace f rest with
    | none => none
    | some rest1 => some (some (f x) :: rest1)

/-- The literal `&tree.Node{Uuid: n.Uuid, Path: n.Path}`. -/
def stripNode (n : Node) : Node := { Uuid := n.Uuid, Path := n.Path }

/-- The literal `&idm.User{Uuid: u.Uuid, Login: u.Login, GroupPath: u.GroupPath,
GroupLabel: u.GroupLabel, IsGroup: u.IsGroup}`. -/
def stripUser (u : User) : User :=
  { Uuid := u.Uuid, Login := u.Login, GroupPath := u.GroupPath, GroupLabel := u.GroupLabel,
    IsGroup := u.IsGroup }

/-- The literal `&activity.Object{Id: a.Id}`. -/
def stripActivity (a : Object) : Object := { Id := a.Id }

/-- Embedding of `stripTaskMessage`: the three loops run one after the other over `Nodes`,
`Users` and `Activities`; the message is mutated in place, so the result is the message
with the three slices rewritten. Entries are replaced by fresh values and stripping a
stripped entry changes nothing, so slices or messages that share storage end up with the
same contents as in this value-level reading. -/
def stripTaskMessage (message : ActionMessage) : Option ActionMessage :=
  match rangeReplace stripNode message.Nodes with
  | none => none
  | some nodes =>
    match rangeReplace stripUser message.Users with
    | none => none
    | some users =>
      match rangeReplace stripActivity message.Activities with
      | none => none
      | some activities =>
        some { message with Nodes := nodes, Users := users, Activities := activities }

/-- The guarded call `if p != nil { stripTaskMessage(p) }` on a message pointer. -/
def stripIfPresent : Option ActionMessage → Option (Option ActionMessage)
  | none => some none
  | some m =>
    match stripTaskMessage m with
    | none => none
    | some m1 => some (some m1)

/-- One iteration of the loop of `stripTaskData` on the log pointer `l`: reading
`l.InputMessage` of a nil `l` panics. -/
def stripLog : Option ActionLog → Option (Option ActionLog)
  | none => none
  | some l =>
    match stripIfPresent l.InputMessage with
    | none => none
    | some input =>
      match stripIfPresent l.OutputMessage with
      | none => none
      | some output => some (some { l with InputMessage := input, OutputMessage := output })

/-- The loop `for _, l := range task.ActionsLogs` of `stripTaskData`. -/
def stripLogs : List (Option ActionLog) → Option (List (Option ActionLog))
  | [] => some []
  | l :: rest =>
    match stripLog l with
    | none => none
    | some l1 =>
      match stripLogs rest with
      | none => none
      | some rest1 => some (l1 :: rest1)

/-- Embedding of `stripTaskData`. -/
def stripTaskData (task : Task) : Option Task :=
  match stripLogs task.ActionsLogs with
  | none => none
  | some logs => some { task with ActionsLogs := logs }

/-! ## Errors, storage handles and the DAO factory -/

/-- Modelled from the spec: Go `error` values. `UnsupportedDriver` is what the helper
`dao.UnsupportedDriver(o)` (not among the sources) builds for the handle `o`; `Storage` is
an error of a storage backend; `New` is `errors.New(text)`. -/
inductive Error where
  | UnsupportedDriver (driver : String)
  | Storage (text : String)
  | New (text : String)
deriving DecidableEq, Repr

/-- What one receive of the `select` of `Migrate` yields: `case j := <-jj` delivers a job
pointer, `case <-done` the completion signal. A list of these is the order in which the
consumer of an enumeration observes the two channels. -/
inductive Recv where
  | job (j : Option Job)
  | done
deriving DecidableEq, Repr

/-- The methods of the interface `DAO` that `Migrate` calls, over the state `σ` of the
backend; the implementations (bolt and mongo stores) are not among the sources and are
parameters. `ListJobs` returns the error of the call or the receives its two channels
deliver; a write returns the new state and the `error` result. -/
structure DAO (σ : Type) where
  ListJobs : σ → String → Bool → Bool → TaskStatus → List String → Except Error (List Recv)
  PutJob : σ → Job → σ × Option Error
  PutTask : σ → Task → σ × Option Error

/-- The handle `o dao.DAO` given to `NewDAO`, by the case of the type switch it takes. A
`boltdb.DAO` or `mongodb.DAO` handle comes with the behaviour of the store built over it;
any other handle (nil included) only has a driver name. -/
inductive Handle (σ : Type) where
  | boltdb (v : DAO σ)
  | mongodb (v : DAO σ)
  | other (driver : String)

/-- The driver name of a handle, as `dao.UnsupportedDriver` reports it. -/
def Handle.driver {σ : Type} : Handle σ → String
  | Handle.boltdb _ => "boltdb"
  | Handle.mongodb _ => "mongodb"
  | Handle.other d => d

/-- Modelled from the spec: `NewBoltStore` is not among the sources; the factory "returns the
corresponding adapter" for a handle of a known type, so it yields the store over the handle
and no error. -/
def NewBoltStore {σ : Type} (v : DAO σ) : Option (DAO σ) × Option Error := (some v, none)

/-- The literal `&mongoImpl{DAO: v}`. -/
def mongoImpl {σ : Type} (v : DAO σ) : DAO σ := v

/-- Modelled from the spec: `dao.UnsupportedDriver(o)` is not among the sources; it is the
error "the Factory was given a handle type with no matching adapter", for the handle `o`. -/
def UnsupportedDriver {σ : Type} (o : Handle σ) : Error := Error.UnsupportedDriver o.driver

/-- Embedding of `NewDAO`: the pair (adapter, error) of the type switch. -/
def NewDAO {σ : Type} (o : Handle σ) : Option (DAO σ) × Option Error :=
  match o with
  | Handle.boltdb v => NewBoltStore v
  | Handle.mongodb v => (some (mongoImpl v), none)
  | Handle.other _ => (none, some (UnsupportedDriver o))

/-! ## Migration -/

/-- The Go map `map[string]int`, as an association list with one pair per key. -/
abbrev Counters := List (String × Int)

/-- The read `m[k]`: the zero value when the key is absent. -/
def Counters.get (m : Counters) (k : String) : Int :=
  match m with
  | [] => 0
  | (k1, v) :: rest => if k1 = k then v else Counters.get rest k

/-- The assignment `m[k] = v`. -/
def Counters.set (m : Counters) (k : String) (v : Int) : Counters :=
  match m with
  | [] => [(k, v)]
  | (k1, v1) :: rest => if k1 = k then (k, v) :: rest else (k1, v1) :: Counters.set rest k v

/-- The keys of the map. -/
def Counters.keys (m : Counters) : List String := m.map Prod.fst

/-- A write call on the destination: `to.PutJob(j)` or `to.PutTask(ta)`. -/
inductive Write where
  | putJob (j : Job)
  | putTask (ta : Task)
deriving DecidableEq, Repr

/-- What a call of `Migrate` that returns leaves behind: its two results (`out` is `none`
for a nil map, `err` is `none` for a nil error), the state of the destination backend, and
a record of the backend calls it made: whether `ListJobs` was called on the source, and the
write calls issued on the destination, in order. -/
structure MigrateResult (σ : Type) where
  out : Option Counters
  err : Option Error
  dest : σ
  listed : Bool
  writes : List Write

/-- The loop `for _, ta := range tasks` of `Migrate`, from the destination state `s` and the
calls `w` issued so far: it stops at the first `PutTask` that returns an error. -/
def putTasks {σ : Type} (toDAO : DAO σ) : List Task → σ → List Write → σ × List Write × Option Error
  | [], s, w => (s, w, none)
  | ta :: rest, s, w =>
    match toDAO.PutTask s ta with
    | (s1, some er) => (s1, w ++ [Write.putTask ta], some er)
    | (s1, none) => putTasks toDAO rest s1 (w ++ [Write.putTask ta])

/-- The labelled loop `for { select { ... } }` of `Migrate` over the receives still to come,
with the map `out`, the destination state `s` and the calls `w` issued so far. When nothing
more is ever delivered the `select` blocks forever, and reading `j.Tasks` of a nil job
panics: no result in both cases. The `break` under `if dryRun` leaves the `select` only, so
the loop goes on with the next receive. -/
def migrateLoop {σ : Type} (toDAO : DAO σ) (dryRun : Bool) :
    List Recv → Counters → σ → List Write → Option (MigrateResult σ)
  | [], _, _, _ => none
  | Recv.done :: _, out, s, w => some ⟨some out, none, s, true, w⟩
  | Recv.job none :: _, _, _, _ => none
  | Recv.job (some j) :: rest, out, s, w =>
    let tasks := j.Tasks
    let out1 := Counters.set out "Jobs" (Counters.get out "Jobs" + 1)
    let out2 := Counters.set out1 "Tasks" (Counters.get out1 "Tasks" + (tasks.length : Int))
    if dryRun then migrateLoop toDAO dryRun rest out2 s w
    else
      match toDAO.PutJob s j with
      | (s1, some e) => some ⟨some out2, some e, s1, true, w ++ [Write.putJob j]⟩
      | (s1, none) =>
        match putTasks toDAO tasks s1 (w ++ [Write.putJob j]) with
        | (s2, w2, some er) => some ⟨some out2, some er, s2, true, w2⟩
        | (s2, w2, none) => migrateLoop toDAO dryRun rest out2 s2 w2

/-- Embedding of `Migrate(f, t, dryRun, status)`, from the state `sf` of the source backend
and `st` of the destination backend; the parameter `status` is never used. A type assertion
`df.(DAO)` on a nil adapter returned without an error panics. The counters are Go `int`s;
they count received jobs and tasks, so they stay far below the 64-bit range and are plain
integers here. -/
def Migrate {σ₁ σ₂ : Type} (f : Handle σ₁) (t : Handle σ₂) (dryRun : Bool) (sf : σ₁) (st : σ₂) :
    Option (MigrateResult σ₂) :=
  let out : Counters := [("Jobs", 0), ("Tasks", 0)]
  match NewDAO f with
  | (_, some e) => some ⟨some out, some e, st, false, []⟩
  | (none, none) => none
  | (some fromDAO, none) =>
    match NewDAO t with
    | (_, some e) => some ⟨some out, some e, st, false, []⟩
    | (none, none) => none
    | (some toDAO, none) =>
      match fromDAO.ListJobs sf "" false false TaskStatus.Any [] with
      | Except.error er => some ⟨none, some er, st, true, []⟩
      | Except.ok events => migrateLoop toDAO dryRun events out st []

/-! ### Vocabulary for stating what `Migrate` does -/

/-- The receives of an enumeration that delivers the jobs `js` in order. -/
def deliver (js : List Job) : List Recv := js.map (fun j => Recv.job (some j))

/-- The writes `Migrate` issues for one job when none fails: `PutJob(j)` followed by
`PutTask(ta)` for each `ta` of `j.Tasks` in list order. -/
def jobWrites (j : Job) : List Write := Write.putJob j :: j.Tasks.map Write.putTask

/-- The writes for a list of jobs, job after job. -/
def allWrites : List Job → List Write
  | [] => []
  | j :: js => jobWrites j ++ allWrites js

/-- Issue one write call on the destination. -/
def issue {σ : Type} (toDAO : DAO σ) (s : σ) : Write → σ × Option Error
  | Write.putJob j => toDAO.PutJob s j
  | Write.putTask ta => toDAO.PutTask s ta

/-- Issue the writes `ws` one after the other from state `s`: the final state when the
destination accepts every one of them, `none` as soon as one is rejected. -/
def acceptAll {σ : Type} (toDAO : DAO σ) : σ → List Write → Option σ
  | s, [] => some s
  | s, w :: ws =>
    match issue toDAO s w with
    | (s1, none) => acceptAll toDAO s1 ws
    | (_, some _) => none

/-- The total number of embedded tasks of the jobs `js`: the sum of `len(j.Tasks)`. -/
def totalTasks : List Job → Int
  | [] => 0
  | j :: js => (j.Tasks.length : Int) + totalTasks js

/-- All embedded tasks of the jobs `js`, job after job. -/
def allTasks : List Job → List Task
  | [] => []
  | j :: js => j.Tasks ++ allTasks js

/-- Insert `x` into a keyed collection: replace the entry with the same key, or add it. -/
def upsert {α κ : Type} [DecidableEq κ] (key : α → κ) (x : α) : List α → List α
  | [] => [x]
  | y :: ys => if key y = key x then x :: ys else y :: upsert key x ys

/-- The identifier of a task: its parent job identifier and its own identifier. -/
def Task.key (ta : Task) : String × String := (ta.JobID, ta.ID)

/-- What is compared of a task "by identifier and status": its key and its status. -/
def Task.entry (ta : Task) : (String × String) × TaskStatus := (ta.key, ta.Status)

/-- Insert the entries `xs` one after the other into a keyed collection. -/
def upsertAll {α κ : Type} [DecidableEq κ] (key : α → κ) (xs acc : List α) : List α :=
  xs.foldl (fun acc x => upsert key x acc) acc

/-- Modelled from the spec: a destination "with upsert-by-identifier semantics". The backend
adapters are not among the sources; per the spec `PutJob` "creates or fully replaces the Job
record (upsert by identifier)" and `PutTask` upserts one task, keyed by job then by task
identifier. `jobsOf` reads the identifiers of the jobs a backend state holds, `tasksOf` the
identifier and status of the tasks it holds. Only accepted writes are constrained: an
accepted `PutJob` upserts the job identifier, and either leaves the tasks held as they are
or, when the adapter persists the job with its embedded tasks, upserts those tasks; an
accepted `PutTask` upserts the task. -/
def UpsertByIdentifier {σ : Type} (toDAO : DAO σ) (jobsOf : σ → List String)
    (tasksOf : σ → List ((String × String) × TaskStatus)) : Prop :=
  (∀ s j s1, toDAO.PutJob s j = (s1, none) →
      jobsOf s1 = upsert id j.ID (jobsOf s) ∧
      (tasksOf s1 = tasksOf s ∨
        tasksOf s1 = upsertAll Prod.fst (j.Tasks.map Task.entry) (tasksOf s))) ∧
  (∀ s ta s1, toDAO.PutTask s ta = (s1, none) →
      jobsOf s1 = jobsOf s ∧ tasksOf s1 = upsert Prod.fst ta.entry (tasksOf s))

/-! ## Chat: `ChatHandler.DeleteRoom` -/

/-- Modelled from the spec: the generated declaration of `chat.ChatRoom` is not among the
sources; the handler hands the room pointer on without looking inside. -/
structure ChatRoom where
  Uuid : String := ""
  RoomLabel : String := ""
deriving DecidableEq, Repr

/-- The request `chat.DeleteRoomRequest`: `Room` is a pointer that may be nil. -/
structure DeleteRoomRequest where
  Room : Option ChatRoom := none
deriving DecidableEq, Repr

/-- The response `chat.DeleteRoomResponse`. -/
structure DeleteRoomResponse where
  Success : Bool := false
deriving DecidableEq, Repr

/-- The event `chat.ChatEvent`, with the two fields the handler sets. -/
structure ChatEvent where
  Room : Option ChatRoom := none
  Details : String := ""
deriving DecidableEq, Repr

/-- The topics of the broker; `common.TopicChatEvent` is the one the handler publishes on. -/
inductive Topic where
  | TopicChatEvent
deriving DecidableEq, Repr

/-- The method `DeleteRoom` of the chat DAO (`chat2.DAO`, not among the sources), over the
state `σ` of its store: the new state and the results `(ok, err)`. -/
structure ChatDAO (σ : Type) where
  DeleteRoom : σ → Option ChatRoom → σ × Bool × Option Error

/-- The handler `ChatHandler`, with its field `dao`. -/
structure ChatHandler (σ : Type) where
  dao : ChatDAO σ

/-- What a call of `ChatHandler.DeleteRoom` leaves behind: its two results, the state of the
store, and the events passed to `broker.MustPublish`, in order. -/
structure DeleteRoomResult (σ : Type) where
  response : Option DeleteRoomResponse
  err : Option Error
  store : σ
  published : List (Topic × ChatEvent)

/-- Embedding of `ChatHandler.DeleteRoom`, from the state `s` of the store. The debug log
line `log.Logger(ctx).Debug("Delete Room", req.Room.Zap())` is taken to have no effect on
the results. -/
def ChatHandler.DeleteRoom {σ : Type} (c : ChatHandler σ) (s : σ) (req : DeleteRoomRequest) :
    DeleteRoomResult σ :=
  let response : DeleteRoomResponse := {}
  match c.dao.DeleteRoom s req.Room with
  | (s1, _, some err) => ⟨none, some err, s1, []⟩
  | (s1, false, none) =>
    ⟨none, some (Error.New "cannot delete room, but DeleteRoom method returned no error"), s1, []⟩
  | (s1, true, none) =>
    ⟨some { response with Success := true }, none, s1,
      [(Topic.TopicChatEvent, { Room := req.Room, Details := "DELETE" })]⟩

/-! ## Vocabulary for stating what redaction does -/

/-- The node `n1` carries only the `Uuid` and the `Path` of `n`: every other field is at
its zero value. -/
def Node.onlyIdPath (n n1 : Node) : Prop :=
  n1.Uuid = n.Uuid ∧ n1.Path = n.Path ∧ n1.Size = 0 ∧ n1.MTime = 0 ∧ n1.Mode = 0 ∧
    n1.Etag = "" ∧ n1.Commits = [] ∧ n1.MetaStore = [] ∧ n1.AppearsIn = []

/-- The user `u1` carries only the `Uuid`, `Login`, `GroupPath`, `GroupLabel` and `IsGroup`
of `u`: every other field is at its zero value. -/
def User.onlyIdentity (u u1 : User) : Prop :=
  u1.Uuid = u.Uuid ∧ u1.Login = u.Login ∧ u1.GroupPath = u.GroupPath ∧
    u1.GroupLabel = u.GroupLabel ∧ u1.IsGroup = u.IsGroup ∧ u1.Attributes = [] ∧
    u1.Roles = [] ∧ u1.Password = "" ∧ u1.OldPassword = "" ∧ u1.LastConnected = 0 ∧
    u1.Policies = [] ∧ u1.PoliciesContextEditable = false

/-- The activity `a1` carries only the `Id` of `a`: every other field is at its zero
value. -/
def Object.onlyId (a a1 : Object) : Prop :=
  a1.Id = a.Id ∧ a1.Kind = "" ∧ a1.Name = "" ∧ a1.Summary = "" ∧ a1.Markdown = "" ∧
    a1.Content = "" ∧ a1.Items = []

/-- The entry `o1` of a slice of pointers holds a value related by `P` to the value the
entry `o` held; neither is nil. -/
def EntryIs {α : Type} (P : α → α → Prop) (o o1 : Option α) : Prop :=
  ∃ x x1, o = some x ∧ o1 = some x1 ∧ P x x1

/-- The message `m1` is `m` with each of its nodes, users and activities reduced, entry by
entry (same lengths, same order). -/
def MessageIs (m m1 : ActionMessage) : Prop :=
  List.Forall₂ (EntryIs Node.onlyIdPath) m.Nodes m1.Nodes ∧
  List.Forall₂ (EntryIs User.onlyIdentity) m.Users m1.Users ∧
  List.Forall₂ (EntryIs Object.onlyId) m.Activities m1.Activities

/-- The message pointer `p1` is what `stripTaskData` leaves of the pointer `p`: nil stays
nil, a message is replaced by its reduction. -/
def PointerIs (p p1 : Option ActionMessage) : Prop :=
  match p with
  | none => p1 = none
  | some m => ∃ m1, p1 = some m1 ∧ stripTaskMessage m = some m1 ∧ MessageIs m m1

/-- No entry of the three slices of the message is nil. -/
def ActionMessage.noNil (m : ActionMessage) : Bool :=
  m.Nodes.all Option.isSome && m.Users.all Option.isSome && m.Activities.all Option.isSome

/-- The messages of the log have no nil entry. -/
def ActionLog.noNil (a : ActionLog) : Bool :=
  a.InputMessage.all ActionMessage.noNil && a.OutputMessage.all ActionMessage.noNil

/-- No log pointer of the task is nil, and the messages of its logs have no nil entry. -/
def Task.noNil (t : Task) : Bool :=
  t.ActionsLogs.all (fun l => match l with
    | none => false
    | some a => a.noNil)

/-- The message with every entry of its three slices reduced; used to describe results. -/
def ActionMessage.reduced (m : ActionMessage) : ActionMessage :=
  { m with
    Nodes := m.Nodes.map (Option.map stripNode)
    Users := m.Users.map (Option.map stripUser)
    Activities := m.Activities.map (Option.map stripActivity) }

/-- The log with its two messages reduced. -/
def ActionLog.reduced (a : ActionLog) : ActionLog :=
  { a with
    InputMessage := a.InputMessage.map ActionMessage.reduced
    OutputMessage := a.OutputMessage.map ActionMessage.reduced }

/-- The task with all its logs reduced. -/
def Task.reduced (t : Task) : Task :=
  { t with ActionsLogs := t.ActionsLogs.map (Option.map ActionLog.reduced) }

/-- The log pointer `l1` is what `stripTaskData` leaves of the log pointer `l`: neither is
nil, and each of the two message pointers of the log is as `PointerIs` says. -/
def LogIs (l l1 : Option ActionLog) : Prop :=
  ∃ a a1, l = some a ∧ l1 = some a1 ∧ PointerIs a.InputMessage a1.InputMessage ∧
    PointerIs a.OutputMessage a1.OutputMessage

/-- A message with a node carrying metadata, a user carrying a profile and an activity
carrying a body. -/
def exampleMessage : ActionMessage :=
  { Event := "ev"
    Nodes := [some { Uuid := "n1", Path := "ds/a.txt", Size := 12, Etag := "e", MetaStore := [("k", "v")] }]
    Users := [some { Uuid := "u1", Login := "alice", GroupPath := "/", GroupLabel := "g", IsGroup := false,
                     Attributes := [("email", "a@b")], Roles := ["r"], Password := "secret",
                     Policies := ["p"] }]
    Activities := [some { Id := "a1", Name := "act", Summary := "body" }] }

/-- The reduction of `exampleMessage`. -/
def exampleMessageReduced : ActionMessage :=
  { Event := "ev"
    Nodes := [some { Uuid := "n1", Path := "ds/a.txt" }]
    Users := [some { Uuid := "u1", Login := "alice", GroupPath := "/", GroupLabel := "g", IsGroup := false }]
    Activities := [some { Id := "a1" }] }

/-- A task with two logs: one with an input message only, one with both messages. -/
def exampleTask : Task :=
  { ID := "t1", JobID := "j1", Status := TaskStatus.Finished
    ActionsLogs := [some { ActionID := "x", InputMessage := some exampleMessage },
                    some { ActionID := "y", InputMessage := some exampleMessageReduced,
                           OutputMessage := some exampleMessage }] }

/-- The reduction of `exampleTask`. -/
def exampleTaskReduced : Task :=
  { ID := "t1", JobID := "j1", Status := TaskStatus.Finished
    ActionsLogs := [some { ActionID := "x", InputMessage := some exampleMessageReduced },
                    some { ActionID := "y", InputMessage := some exampleMessageReduced,
                           OutputMessage := some exampleMessageReduced }] }

/-- The counter map holding `jobs` under "Jobs" and `tasks` under "Tasks", and no other
key. -/
def counted (jobs tasks : Int) : Counters := [("Jobs", jobs), ("Tasks", tasks)]

/-- A source or destination handle is supported when `NewDAO` yields the adapter `d` for it
and no error. -/
def Supported {σ : Type} (h : Handle σ) (d : DAO σ) : Prop := NewDAO h = (some d, none)

/-- The unfiltered enumeration of the source `d` in state `s`, as `Migrate` requests it:
no owner, no trigger filter, tasks of any status, no identifier restriction. -/
def unfiltered {σ : Type} (d : DAO σ) (s : σ) : Except Error (List Recv) :=
  d.ListJobs s "" false false TaskStatus.Any []

/-- A backend whose enumeration delivers the given receives and which accepts every write
without keeping anything. -/
def listingDAO (events : List Recv) : DAO Unit where
  ListJobs := fun _ _ _ _ _ _ => Except.ok events
  PutJob := fun s _ => (s, none)
  PutTask := fun s _ => (s, none)

/-- A backend whose `ListJobs` call fails. -/
def brokenDAO : DAO Unit where
  ListJobs := fun _ _ _ _ _ _ => Except.error (Error.Storage "cannot open bucket")
  PutJob := fun s _ => (s, none)
  PutTask := fun s _ => (s, none)

/-- A backend with room for a number of writes: its state is the number of writes it still
accepts; once it is zero every write is rejected. -/
def quotaDAO : DAO Nat where
  ListJobs := fun _ _ _ _ _ _ => Except.ok [Recv.done]
  PutJob := fun s _ => if s = 0 then (s, some (Error.Storage "disk full")) else (s - 1, none)
  PutTask := fun s _ => if s = 0 then (s, some (Error.Storage "disk full")) else (s - 1, none)

/-- The state of an in-memory backend: the jobs and the tasks it holds. -/
structure MemStore where
  jobs : List Job := []
  tasks : List Task := []
deriving DecidableEq, Repr

/-- Modelled from the spec: an in-memory backend with the upsert semantics the spec gives to
`PutJob` and `PutTask`; its enumeration delivers the jobs it holds and then completes. -/
def memDAO : DAO MemStore where
  ListJobs := fun s _ _ _ _ _ => Except.ok (deliver s.jobs ++ [Recv.done])
  PutJob := fun s j => ({ s with jobs := upsert Job.ID j s.jobs }, none)
  PutTask := fun s ta => ({ s with tasks := upsert Task.key ta s.tasks }, none)

/-- Modelled from the spec: an in-memory backend whose `PutJob` persists the job together with
its embedded tasks (upserting each of them), and whose `PutTask` upserts one task. -/
def memEmbedDAO : DAO MemStore where
  ListJobs := fun s _ _ _ _ _ => Except.ok (deliver s.jobs ++ [Recv.done])
  PutJob := fun s j =>
    ({ jobs := upsert Job.ID j s.jobs, tasks := upsertAll Task.key j.Tasks s.tasks }, none)
  PutTask := fun s ta => ({ s with tasks := upsert Task.key ta s.tasks }, none)

/-- A job with two tasks. -/
def exampleJob1 : Job :=
  { ID := "j1", Tasks := [{ ID := "t1", JobID := "j1", Status := TaskStatus.Finished },
                          { ID := "t2", JobID := "j1", Status := TaskStatus.Error }] }

/-- The only task of `exampleJob2`. -/
def exampleTask3 : Task := { ID := "t1", JobID := "j2", Status := TaskStatus.Running }

/-- A job with one task. -/
def exampleJob2 : Job := { ID := "j2", Tasks := [exampleTask3] }

/-- Two jobs with three tasks in total. -/
def exampleJobs : List Job := [exampleJob1, exampleJob2]

/-- A chat store holding room identifiers: deleting a room that is held removes it and
reports `ok`; deleting a room that is not held reports `ok = false` and no error; a nil room
or a room without identifier is an error. -/
def roomsDAO : ChatDAO (List String) where
  DeleteRoom := fun s room =>
    match room with
    | none => (s, false, some (Error.Storage "no room identifier"))
    | some r =>
      if r.Uuid = "" then (s, false, some (Error.Storage "no room identifier"))
      else if r.Uuid ∈ s then (s.erase r.Uuid, true, none)
      else (s, false, none)

/-- The in-memory store after the migration of `exampleJobs` into an empty one. -/
def exampleMigrated : MemStore := { jobs := exampleJobs, tasks := allTasks exampleJobs }

/-- The message `m1` has the structure of `m`: the fields other than the three slices are
unchanged, the three slices have the same lengths, and the entry at each position carries
the identifier of the entry `m` had at that position. -/
def MessageKeeps (m m1 : ActionMessage) : Prop :=
  m1.Event = m.Event ∧ m1.OutputChain = m.OutputChain ∧
  m1.Nodes.length = m.Nodes.length ∧ m1.Users.length = m.Users.length ∧
  m1.Activities.length = m.Activities.length ∧
  List.Forall₂ (EntryIs (fun n n1 => n1.Uuid = n.Uuid)) m.Nodes m1.Nodes ∧
  List.Forall₂ (EntryIs (fun u u1 => u1.Uuid = u.Uuid)) m.Users m1.Users ∧
  List.Forall₂ (EntryIs (fun a a1 => a1.Id = a.Id)) m.Activities m1.Activities

/-- The message pointer `p1` has the structure of the pointer `p`: nil stays nil, a message
stays a message with the same structure. -/
def PointerKeeps (p p1 : Option ActionMessage) : Prop :=
  match p with
  | none => p1 = none
  | some m => ∃ m1, p1 = some m1 ∧ MessageKeeps m m1

/-- The log pointer `l1` has the structure of the log pointer `l`: neither is nil, the field
`ActionID` is unchanged and both message pointers keep their structure. -/
def LogKeeps (l l1 : Option ActionLog) : Prop :=
  ∃ a a1, l = some a ∧ l1 = some a1 ∧ a1.ActionID = a.ActionID ∧
    PointerKeeps a.InputMessage a1.InputMessage ∧
    PointerKeeps a.OutputMessage a1.OutputMessage

/-! ## Workspace first run: `FirstRun` and `createWs` -/

/-- Modelled from the spec: the values of `idm.WorkspaceScope`; the declaration is not among
the sources. `ANY` is the zero value, `ADMIN` the value `createWs` sets. -/
inductive WorkspaceScope where
  | ANY
  | ADMIN
deriving DecidableEq, Repr

/-- Modelled from the spec: the values of `service.ResourcePolicyAction`; the declaration is
not among the sources. `ANY` is the zero value, `READ` and `WRITE` the values the code
names. -/
inductive ResourcePolicyAction where
  | ANY
  | READ
  | WRITE
deriving DecidableEq, Repr

/-- Modelled from the spec: the values of the effect of a `service.ResourcePolicy`; the
declaration is not among the sources. `deny` is the zero value, `allow` the value the code
names. -/
inductive ResourcePolicyEffect where
  | deny
  | allow
deriving DecidableEq, Repr

/-- Modelled from the spec: `service.ResourcePolicy`, with the three fields the code sets;
the declaration is not among the sources. -/
structure ResourcePolicy where
  Subject : String := ""
  Action : ResourcePolicyAction := ResourcePolicyAction.ANY
  Effect : ResourcePolicyEffect := ResourcePolicyEffect.deny
deriving DecidableEq, Repr

/-- Modelled from the spec: `idm.Workspace`, with the fields the code sets; the declaration
is not among the sources. -/
structure Workspace where
  UUID : String := ""
  Label : String := ""
  Description : String := ""
  Slug : String := ""
  Scope : WorkspaceScope := WorkspaceScope.ANY
  Policies : List ResourcePolicy := []
deriving DecidableEq, Repr

/-- Modelled from the spec: the values of `*idm.ACLAction` the code uses; the declaration
and the constants of package `permissions` are not among the sources. `AclRead`, `AclWrite`
and `AclRecycleRoot` are the constants of these names, `wsroot v` is the literal
`&idm.ACLAction{Name: permissions.AclWsrootActionName, Value: v}`. -/
inductive ACLAction where
  | AclRead
  | AclWrite
  | wsroot (Value : String)
  | AclRecycleRoot
deriving DecidableEq, Repr

/-- Modelled from the spec: `idm.ACL`, with the fields the code sets; the declaration is not
among the sources. `Action` is a pointer. -/
structure ACL where
  NodeID : String := ""
  Action : Option ACLAction := none
  RoleID : String := ""
  WorkspaceID : String := ""
deriving DecidableEq, Repr

/-- The request `idm.SearchWorkspaceRequest` as `createWs` builds it: a query with the one
sub-query `WorkspaceSingleQuery{Slug: slug}` and a limit. -/
structure SearchWorkspaceRequest where
  Slug : String := ""
  Limit : Int := 0
deriving DecidableEq, Repr

/-- The response `idm.SearchWorkspaceResponse`: `Workspace` is a pointer that may be nil. -/
structure SearchWorkspaceResponse where
  Workspace : Option Workspace := none
deriving DecidableEq, Repr

/-- A call on the workspace service client or on the ACL service client. -/
inductive IdmCall where
  | search (req : SearchWorkspaceRequest)
  | createWorkspace (ws : Workspace)
  | createACL (acl : ACL)
deriving DecidableEq, Repr

/-- What `FirstRun` and `createWs` depend on and is not among the sources, over the state
`σ` of the services: the constant `common.PydioProfileAdmin`, the generator `uuid.New()`,
and the three remote calls. `SearchWorkspace` returns the error of the call, or the
responses that `rC.Recv()` delivers before its first error (the end of the stream); the
two other calls return their `error` result, their response being ignored by the code. -/
structure Services (σ : Type) where
  PydioProfileAdmin : String
  uuidNew : σ → σ × String
  SearchWorkspace : σ → SearchWorkspaceRequest →
    σ × Except Error (List (Option SearchWorkspaceResponse))
  CreateWorkspace : σ → Workspace → σ × Option Error
  CreateACL : σ → ACL → σ × Option Error

/-- What a call of `createWs` or `FirstRun` leaves behind: its `error` result, the state of
the services, and the remote calls made, in order. -/
structure IdmResult (σ : Type) where
  err : Option Error
  state : σ
  calls : List IdmCall

/-- The package variable `initialPolicies`. -/
def initialPolicies {σ : Type} (env : Services σ) : List ResourcePolicy :=
  [{ Subject := "profile:standard", Action := ResourcePolicyAction.READ,
     Effect := ResourcePolicyEffect.allow },
   { Subject := "profile:" ++ env.PydioProfileAdmin, Action := ResourcePolicyAction.WRITE,
     Effect := ResourcePolicyEffect.allow }]

/-- The loop `for { resp, er := rC.Recv() ... }` of `createWs` over the responses the stream
delivers before its first error: `true` when it returns because a workspace was found,
`false` when it is left with `break` on the error. -/
def recvLoop : List (Option SearchWorkspaceResponse) → Bool
  | [] => false
  | none :: rest => recvLoop rest
  | some resp :: rest =>
    match resp.Workspace with
    | some _ => true
    | none => recvLoop rest

/-- The literal `acls := []*idm.ACL{...}` of `createWs`. -/
def rootACLs (ws : Workspace) (rootUuid rootPath : String) : List ACL :=
  [{ NodeID := rootUuid, Action := some ACLAction.AclRead, RoleID := "ROOT_GROUP",
     WorkspaceID := ws.UUID },
   { NodeID := rootUuid, Action := some ACLAction.AclWrite, RoleID := "ROOT_GROUP",
     WorkspaceID := ws.UUID },
   { NodeID := rootUuid, Action := some (ACLAction.wsroot rootPath), WorkspaceID := ws.UUID },
   { NodeID := rootUuid, Action := some ACLAction.AclRecycleRoot, WorkspaceID := ws.UUID }]

/-- The loop `for _, acl := range acls` of `createWs`, from the state `s` and the calls
made so far: it stops at the first `CreateACL` that returns an error. -/
def createACLs {σ : Type} (env : Services σ) :
    List ACL → σ → List IdmCall → σ × List IdmCall × Option Error
  | [], s, calls => (s, calls, none)
  | acl :: rest, s, calls =>
    match env.CreateACL s acl with
    | (s1, some e) => (s1, calls ++ [IdmCall.createACL acl], some e)
    | (s1, none) => createACLs env rest s1 (calls ++ [IdmCall.createACL acl])

/-- Embedding of `createWs(ctx, wsClient, ws, rootUuid, rootPath)`, from the state `s` of
the services and the calls made so far. The error of `anypb.New` is ignored by the code,
and cancelling the context of the search on return has no effect on the results. -/
def createWs {σ : Type} (env : Services σ) (s : σ) (calls : List IdmCall) (ws : Workspace)
    (rootUuid rootPath : String) : IdmResult σ :=
  let ws1 : Workspace := { ws with Scope := WorkspaceScope.ADMIN, Policies := initialPolicies env }
  let req : SearchWorkspaceRequest := { Slug := ws1.Slug, Limit := 1 }
  match env.SearchWorkspace s req with
  | (s1, rC) =>
    let calls1 := calls ++ [IdmCall.search req]
    let found :=
      match rC with
      | Except.ok stream => recvLoop stream
      | Except.error _ => false
    if found then ⟨none, s1, calls1⟩
    else
      match env.CreateWorkspace s1 ws1 with
      | (s2, some e) => ⟨some e, s2, calls1 ++ [IdmCall.createWorkspace ws1]⟩
      | (s2, none) =>
        match createACLs env (rootACLs ws1 rootUuid rootPath) s2
            (calls1 ++ [IdmCall.createWorkspace ws1]) with
        | (s3, calls3, e) => ⟨e, s3, calls3⟩

/-- The loop `for _, s := range sources` of `FirstRun`, from the current values of
`hasPersonal` and `commonDS`. -/
def scanSources : List String → Bool → String → Bool × String
  | [], hasPersonal, commonDS => (hasPersonal, commonDS)
  | s :: rest, hasPersonal, commonDS =>
    if s = "personal" then scanSources rest true commonDS
    else if s = "cellsdata" ∨ s = "versions" ∨ s = "thumbnails" then
      scanSources rest hasPersonal commonDS
    else scanSources rest hasPersonal s

/-- Embedding of `FirstRun(ctx)`, from the state `s` of the services; `sources` is what
`config.SourceNamesForDataServices(common.ServiceDataIndex)` returns (not among the
sources). Log lines have no effect on the results. -/
def FirstRun {σ : Type} (env : Services σ) (sources : List String) (s : σ) : IdmResult σ :=
  match scanSources sources false "" with
  | (hasPersonal, commonDS) =>
    if !hasPersonal && commonDS == "" then ⟨none, s, []⟩
    else
      let afterPersonal : IdmResult σ :=
        if hasPersonal then
          match env.uuidNew s with
          | (s1, u) =>
            createWs env s1 []
              { UUID := u, Label := "Personal Files", Description := "User personal data",
                Slug := "personal-files" } "my-files" "my-files"
        else ⟨none, s, []⟩
      match afterPersonal.err with
      | some er => ⟨some er, afterPersonal.state, afterPersonal.calls⟩
      | none =>
        if commonDS ≠ "" then
          match env.uuidNew afterPersonal.state with
          | (s2, u) =>
            match createWs env s2 afterPersonal.calls
                { UUID := u, Label := "Common Files", Description := "Data shared by all users",
                  Slug := "common-files" } ("DATASOURCE:" ++ commonDS) commonDS with
            | ⟨some er, s3, calls3⟩ => ⟨some er, s3, calls3⟩
            | ⟨none, s3, calls3⟩ => ⟨none, s3, calls3⟩
        else ⟨none, afterPersonal.state, afterPersonal.calls⟩

/-! ### Vocabulary for stating what `FirstRun` and `createWs` do -/

/-- A source name other than "personal", "cellsdata", "versions" and "thumbnails". -/
def isOther (s : String) : Bool :=
  s ≠ "personal" && s ≠ "cellsdata" && s ≠ "versions" && s ≠ "thumbnails"

/-- The last name of the list other than "personal", "cellsdata", "versions" and
"thumbnails", if there is one. -/
def lastOther (sources : List String) : Option String := (sources.filter isOther).getLast?

/-- An attempt to create a workspace: one call of `createWs`, with the label, description
and slug of the workspace and the root node it is given. -/
structure Attempt where
  Label : String
  Description : String
  Slug : String
  rootUuid : String
  rootPath : String
deriving DecidableEq, Repr

/-- The attempt to create the "Personal Files" workspace, rooted at `my-files`. -/
def personalAttempt : Attempt :=
  { Label := "Personal Files", Description := "User personal data", Slug := "personal-files",
    rootUuid := "my-files", rootPath := "my-files" }

/-- The attempt to create the "Common Files" workspace, rooted at the datasource `ds`. -/
def commonAttempt (ds : String) : Attempt :=
  { Label := "Common Files", Description := "Data shared by all users", Slug := "common-files",
    rootUuid := "DATASOURCE:" ++ ds, rootPath := ds }

/-- The attempts the claim describes, in order: the personal workspace if and only if
"personal" occurs, the common workspace if and only if some other name occurs, rooted at the
last such name. -/
def plannedAsStated (sources : List String) : List Attempt :=
  (if "personal" ∈ sources then [personalAttempt] else []) ++
  (match lastOther sources with
    | some ds => [commonAttempt ds]
    | none => [])

/-- The attempts the code makes, in order: as `plannedAsStated`, except that the common
workspace is left out when the last other name is the empty string. -/
def planned (sources : List String) : List Attempt :=
  (if "personal" ∈ sources then [personalAttempt] else []) ++
  (match lastOther sources with
    | some ds => if ds = "" then [] else [commonAttempt ds]
    | none => [])

/-- Make one attempt: draw a fresh identifier and call `createWs`. -/
def attempt {σ : Type} (env : Services σ) (a : Attempt) (s : σ) (calls : List IdmCall) :
    IdmResult σ :=
  createWs env (env.uuidNew s).1 calls
    { UUID := (env.uuidNew s).2, Label := a.Label, Description := a.Description,
      Slug := a.Slug } a.rootUuid a.rootPath

/-- Make the attempts one after the other, returning the error of the first that fails
without making the later ones, and nil when none fails. -/
def runPlanned {σ : Type} (env : Services σ) : List Attempt → σ → List IdmCall → IdmResult σ
  | [], s, calls => ⟨none, s, calls⟩
  | a :: rest, s, calls =>
    match (attempt env a s calls).err with
    | some er => ⟨some er, (attempt env a s calls).state, (attempt env a s calls).calls⟩
    | none => runPlanned env rest (attempt env a s calls).state (attempt env a s calls).calls

/-- Some response of the stream carries a workspace. -/
def carriesWorkspace (stream : List (Option SearchWorkspaceResponse)) : Bool :=
  stream.any (fun r => match r with
    | some resp => resp.Workspace.isSome
    | none => false)

/-- The search of `createWs` found the workspace: the call succeeded and some response of
its stream carries a workspace. -/
def searchFound (rC : Except Error (List (Option SearchWorkspaceResponse))) : Bool :=
  match rC with
  | Except.ok stream => carriesWorkspace stream
  | Except.error _ => false

/-- Issue `CreateACL` for the ACLs one after the other from state `s`: the final state when
every one of them is accepted, `none` as soon as one is rejected. -/
def acceptACLs {σ : Type} (env : Services σ) : σ → List ACL → Option σ
  | s, [] => some s
  | s, acl :: rest =>
    match env.CreateACL s acl with
    | (s1, none) => acceptACLs env s1 rest
    | (_, some _) => none

/-- The workspace as `createWs` sends it: with the admin scope and the initial policies. -/
def prepared {σ : Type} (env : Services σ) (ws : Workspace) : Workspace :=
  { ws with Scope := WorkspaceScope.ADMIN, Policies := initialPolicies env }

/-- The state of an in-memory identity service: the workspaces and ACLs it holds, the
identifiers `uuid.New()` will draw, and the number of creations it still accepts. -/
structure IdmState where
  workspaces : List Workspace := []
  acls : List ACL := []
  uuids : List String := []
  room : Nat := 0
deriving DecidableEq, Repr

/-- An in-memory identity service: the search streams the workspaces with the requested
slug, a creation is accepted while there is room and rejected afterwards. -/
def memServices : Services IdmState where
  PydioProfileAdmin := "admin"
  uuidNew := fun s =>
    match s.uuids with
    | [] => (s, "")
    | u :: us => ({ s with uuids := us }, u)
  SearchWorkspace := fun s req =>
    (s, Except.ok ((s.workspaces.filter (fun w => w.Slug = req.Slug)).map
      (fun w => some { Workspace := some w })))
  CreateWorkspace := fun s ws =>
    if s.room = 0 then (s, some (Error.Storage "no room"))
    else ({ s with workspaces := s.workspaces ++ [ws], room := s.room - 1 }, none)
  CreateACL := fun s acl =>
    if s.room = 0 then (s, some (Error.Storage "no room"))
    else ({ s with acls := s.acls ++ [acl], room := s.room - 1 }, none)

/-- An in-memory identity service that already holds a workspace with the slug
"personal-files". -/
def stateWithPersonal : IdmState :=
  { workspaces := [{ UUID := "w0", Label := "Personal Files", Slug := "personal-files" }]
    uuids := ["u1", "u2"], room := 10 }

/-- An empty in-memory identity service with room for two creations. -/
def stateRoomTwo : IdmState := { uuids := ["u1", "u2"], room := 2 }

/-- A workspace to create, as `FirstRun` builds the personal one. -/
def examplePersonal : Workspace :=
  { UUID := "u1", Label := "Personal Files", Description := "User personal data",
    Slug := "personal-files" }

/-- An empty in-memory identity service with no room for any creation. -/
def stateNoRoom : IdmState := { uuids := ["u1", "u2"], room := 0 }

/-! ## Redaction: lemmas -/

theorem rangeReplace_of_all {α : Type} (f : α → α) (xs : List (Option α))
    (h : xs.all Option.isSome = true) :
    rangeReplace f xs = some (xs.map (Option.map f)) := by
  induction xs with
  | nil => rfl
  | cons o rest ih =>
    cases o with
    | none => simp at h
    | some x =>
      have hr : rest.all Option.isSome = true := by simpa using h
      simp [rangeReplace, ih hr]

theorem rangeReplace_some {α : Type} (f : α → α) (xs ys : List (Option α))
    (h : rangeReplace f xs = some ys) :
    xs.all Option.isSome = true ∧ ys = xs.map (Option.map f) := by
  induction xs generalizing ys with
  | nil =>
    simp [rangeReplace] at h
    simp [h]
  | cons o rest ih =>
    cases o with
    | none => simp [rangeReplace] at h
    | some x =>
      cases hr : rangeReplace f rest with
      | none => simp [rangeReplace, hr] at h
      | some rest1 =>
        simp [rangeReplace, hr] at h
        obtain ⟨h1, h2⟩ := ih rest1 hr
        subst h
        subst h2
        refine ⟨?_, by simp⟩
        simpa using h1

theorem forall₂_entry_map {α : Type} (f : α → α) (P : α → α → Prop) (hP : ∀ x, P x (f x))
    (xs : List (Option α)) (h : xs.all Option.isSome = true) :
    List.Forall₂ (EntryIs P) xs (xs.map (Option.map f)) := by
  induction xs with
  | nil => exact List.Forall₂.nil
  | cons o rest ih =>
    cases o with
    | none => simp at h
    | some x =>
      have hr : rest.all Option.isSome = true := by simpa using h
      exact List.Forall₂.cons ⟨x, f x, rfl, rfl, hP x⟩ (ih hr)

theorem stripNode_onlyIdPath (n : Node) : Node.onlyIdPath n (stripNode n) := by
  simp [Node.onlyIdPath, stripNode]

theorem stripUser_onlyIdentity (u : User) : User.onlyIdentity u (stripUser u) := by
  simp [User.onlyIdentity, stripUser]

theorem stripActivity_onlyId (a : Object) : Object.onlyId a (stripActivity a) := by
  simp [Object.onlyId, stripActivity]

theorem stripTaskMessage_of_noNil (m : ActionMessage) (h : m.noNil = true) :
    stripTaskMessage m = some m.reduced := by
  simp only [ActionMessage.noNil, Bool.and_eq_true] at h
  obtain ⟨⟨h1, h2⟩, h3⟩ := h
  simp only [stripTaskMessage, rangeReplace_of_all _ _ h1, rangeReplace_of_all _ _ h2,
    rangeReplace_of_all _ _ h3, ActionMessage.reduced]

theorem stripTaskMessage_some (m m1 : ActionMessage) (h : stripTaskMessage m = some m1) :
    m.noNil = true ∧ m1 = m.reduced := by
  unfold stripTaskMessage at h
  cases h1 : rangeReplace stripNode m.Nodes with
  | none => simp [h1] at h
  | some nodes =>
    cases h2 : rangeReplace stripUser m.Users with
    | none => simp [h1, h2] at h
    | some users =>
      cases h3 : rangeReplace stripActivity m.Activities with
      | none => simp [h1, h2, h3] at h
      | some acts =>
        simp only [h1, h2, h3, Option.some.injEq] at h
        obtain ⟨a1, b1⟩ := rangeReplace_some _ _ _ h1
        obtain ⟨a2, b2⟩ := rangeReplace_some _ _ _ h2
        obtain ⟨a3, b3⟩ := rangeReplace_some _ _ _ h3
        refine ⟨by simp [ActionMessage.noNil, a1, a2, a3], ?_⟩
        subst h b1 b2 b3
        rfl

theorem messageIs_reduced (m : ActionMessage) (h : m.noNil = true) :
    MessageIs m m.reduced := by
  simp only [ActionMessage.noNil, Bool.and_eq_true] at h
  obtain ⟨⟨h1, h2⟩, h3⟩ := h
  exact ⟨forall₂_entry_map _ _ stripNode_onlyIdPath _ h1,
    forall₂_entry_map _ _ stripUser_onlyIdentity _ h2,
    forall₂_entry_map _ _ stripActivity_onlyId _ h3⟩

theorem reduced_noNil (m : ActionMessage) (h : m.noNil = true) : m.reduced.noNil = true := by
  simp only [ActionMessage.noNil, Bool.and_eq_true, List.all_eq_true] at h ⊢
  obtain ⟨⟨h1, h2⟩, h3⟩ := h
  simp only [ActionMessage.reduced, List.mem_map, forall_exists_index, and_imp]
  refine ⟨⟨?_, ?_⟩, ?_⟩
  · rintro _ o ho rfl
    have := h1 o ho
    cases o <;> simp_all
  · rintro _ o ho rfl
    have := h2 o ho
    cases o <;> simp_all
  · rintro _ o ho rfl
    have := h3 o ho
    cases o <;> simp_all

theorem option_map_idem {α : Type} (f : α → α) (hf : ∀ x, f (f x) = f x)
    (xs : List (Option α)) :
    (xs.map (Option.map f)).map (Option.map f) = xs.map (Option.map f) := by
  induction xs with
  | nil => rfl
  | cons o rest ih =>
    cases o with
    | none => simpa using ih
    | some x => simpa [hf x] using ih

theorem reduced_reduced (m : ActionMessage) : m.reduced.reduced = m.reduced := by
  simp only [ActionMessage.reduced]
  rw [option_map_idem stripNode (fun _ => rfl), option_map_idem stripUser (fun _ => rfl),
    option_map_idem stripActivity (fun _ => rfl)]

theorem stripIfPresent_of_noNil (p : Option ActionMessage)
    (h : p.all ActionMessage.noNil = true) :
    stripIfPresent p = some (p.map ActionMessage.reduced) := by
  cases p with
  | none => rfl
  | some m =>
    have hm : m.noNil = true := by simpa using h
    simp [stripIfPresent, stripTaskMessage_of_noNil m hm]

theorem stripIfPresent_some (p p1 : Option ActionMessage) (h : stripIfPresent p = some p1) :
    p.all ActionMessage.noNil = true ∧ p1 = p.map ActionMessage.reduced := by
  cases p with
  | none =>
    simp only [stripIfPresent, Option.some.injEq] at h
    subst h
    simp
  | some m =>
    cases hm : stripTaskMessage m with
    | none => simp [stripIfPresent, hm] at h
    | some m1 =>
      simp [stripIfPresent, hm] at h
      obtain ⟨a, b⟩ := stripTaskMessage_some m m1 hm
      subst h b
      simp [a]

theorem pointerIs_reduced (p : Option ActionMessage) (h : p.all ActionMessage.noNil = true) :
    PointerIs p (p.map ActionMessage.reduced) := by
  cases p with
  | none => simp [PointerIs]
  | some m =>
    have hm : m.noNil = true := by simpa using h
    exact ⟨m.reduced, rfl, stripTaskMessage_of_noNil m hm, messageIs_reduced m hm⟩

theorem stripLog_of_noNil (a : ActionLog) (h : a.noNil = true) :
    stripLog (some a) = some (some a.reduced) := by
  simp only [ActionLog.noNil, Bool.and_eq_true] at h
  simp only [stripLog, stripIfPresent_of_noNil _ h.1, stripIfPresent_of_noNil _ h.2,
    ActionLog.reduced]

theorem stripLog_some (l l1 : Option ActionLog) (h : stripLog l = some l1) :
    ∃ a, l = some a ∧ a.noNil = true ∧ l1 = some a.reduced := by
  cases l with
  | none => simp [stripLog] at h
  | some a =>
    cases hi : stripIfPresent a.InputMessage with
    | none => simp [stripLog, hi] at h
    | some i =>
      cases ho : stripIfPresent a.OutputMessage with
      | none => simp [stripLog, hi, ho] at h
      | some o =>
        simp only [stripLog, hi, ho, Option.some.injEq] at h
        obtain ⟨a1, b1⟩ := stripIfPresent_some _ _ hi
        obtain ⟨a2, b2⟩ := stripIfPresent_some _ _ ho
        refine ⟨a, rfl, by simp [ActionLog.noNil, a1, a2], ?_⟩
        subst h b1 b2
        rfl

theorem stripLogs_of_noNil (ls : List (Option ActionLog))
    (h : ls.all (fun l => match l with
      | none => false
      | some a => a.noNil) = true) :
    stripLogs ls = some (ls.map (Option.map ActionLog.reduced)) := by
  induction ls with
  | nil => rfl
  | cons l rest ih =>
    simp only [List.all_cons, Bool.and_eq_true] at h
    cases l with
    | none => simp at h
    | some a =>
      simp only [stripLogs, stripLog_of_noNil a h.1, ih h.2]
      rfl

theorem stripLogs_some (ls ls1 : List (Option ActionLog)) (h : stripLogs ls = some ls1) :
    ls.all (fun l => match l with
      | none => false
      | some a => a.noNil) = true ∧ ls1 = ls.map (Option.map ActionLog.reduced) := by
  induction ls generalizing ls1 with
  | nil =>
    simp [stripLogs] at h
    simp [h]
  | cons l rest ih =>
    cases hl : stripLog l with
    | none => simp [stripLogs, hl] at h
    | some l1 =>
      cases hr : stripLogs rest with
      | none => simp [stripLogs, hl, hr] at h
      | some rest1 =>
        simp only [stripLogs, hl, hr, Option.some.injEq] at h
        obtain ⟨a, rfl, ha, rfl⟩ := stripLog_some l l1 hl
        obtain ⟨h1, h2⟩ := ih rest1 hr
        subst h h2
        simp [ha, h1]

theorem stripTaskData_of_noNil (t : Task) (h : t.noNil = true) :
    stripTaskData t = some t.reduced := by
  simp only [stripTaskData, stripLogs_of_noNil _ h, Task.reduced]

theorem stripTaskData_some (t t1 : Task) (h : stripTaskData t = some t1) :
    t.noNil = true ∧ t1 = t.reduced := by
  cases hl : stripLogs t.ActionsLogs with
  | none => simp [stripTaskData, hl] at h
  | some logs =>
    simp only [stripTaskData, hl, Option.some.injEq] at h
    obtain ⟨a, b⟩ := stripLogs_some _ _ hl
    subst h b
    exact ⟨a, rfl⟩

theorem logs_forall₂ (ls : List (Option ActionLog))
    (h : ls.all (fun l => match l with
      | none => false
      | some a => a.noNil) = true) :
    List.Forall₂ LogIs ls (ls.map (Option.map ActionLog.reduced)) := by
  induction ls with
  | nil => exact List.Forall₂.nil
  | cons l rest ih =>
    simp only [List.all_cons, Bool.and_eq_true] at h
    cases l with
    | none => simp at h
    | some a =>
      have ha := h.1
      simp only [ActionLog.noNil, Bool.and_eq_true] at ha
      exact List.Forall₂.cons
        ⟨a, a.reduced, rfl, rfl, pointerIs_reduced _ ha.1, pointerIs_reduced _ ha.2⟩ (ih h.2)

theorem actionLog_reduced_noNil (a : ActionLog) (h : a.noNil = true) :
    a.reduced.noNil = true := by
  simp only [ActionLog.noNil, Bool.and_eq_true] at h ⊢
  obtain ⟨h1, h2⟩ := h
  simp only [ActionLog.reduced]
  constructor
  · cases hi : a.InputMessage with
    | none => rfl
    | some m =>
      rw [hi] at h1
      simpa using reduced_noNil m (by simpa using h1)
  · cases ho : a.OutputMessage with
    | none => rfl
    | some m =>
      rw [ho] at h2
      simpa using reduced_noNil m (by simpa using h2)

theorem actionLog_reduced_reduced (a : ActionLog) : a.reduced.reduced = a.reduced := by
  cases a with
  | mk id i o =>
    cases i <;> cases o <;> simp [ActionLog.reduced, reduced_reduced]

theorem task_reduced_noNil (t : Task) (h : t.noNil = true) : t.reduced.noNil = true := by
  simp only [Task.noNil, List.all_eq_true] at h ⊢
  simp only [Task.reduced, List.mem_map, forall_exists_index, and_imp]
  rintro _ l hl rfl
  have := h l hl
  cases l with
  | none => simp at this
  | some a => simpa using actionLog_reduced_noNil a this

theorem task_reduced_reduced (t : Task) : t.reduced.reduced = t.reduced := by
  simp only [Task.reduced]
  rw [option_map_idem ActionLog.reduced actionLog_reduced_reduced]

/-- C1: when `stripTaskMessage` returns, every entry of `Nodes` carries only the `Uuid` and
`Path` of the node it held, every entry of `Users` only the `Uuid`, `Login`, `GroupPath`,
`GroupLabel` and `IsGroup` of the user it held, every entry of `Activities` only the `Id` of
the activity it held, all other fields being zero; when `stripTaskData` returns, every log
has its non-nil input and output message reduced in that way and a nil message left nil.
Both calls do return on a message, respectively a task, without nil entries. -/
theorem redaction_keeps_only_identifiers (m m1 : ActionMessage) (t t1 : Task) :
    (stripTaskMessage m = some m1 → MessageIs m m1) ∧
    (m.noNil = true → ∃ m2, stripTaskMessage m = some m2) ∧
    (stripTaskData t = some t1 → List.Forall₂ LogIs t.ActionsLogs t1.ActionsLogs) ∧
    (t.noNil = true → ∃ t2, stripTaskData t = some t2) := by
  refine ⟨?_, ?_, ?_, ?_⟩
  · intro h
    obtain ⟨a, b⟩ := stripTaskMessage_some m m1 h
    subst b
    exact messageIs_reduced m a
  · intro h
    exact ⟨_, stripTaskMessage_of_noNil m h⟩
  · intro h
    obtain ⟨a, b⟩ := stripTaskData_some t t1 h
    subst b
    exact logs_forall₂ _ a
  · intro h
    exact ⟨_, stripTaskData_of_noNil t h⟩

/-- Witness of C1 on `exampleMessage` and `exampleTask`. -/
theorem redaction_keeps_only_identifiers_witness :
    (stripTaskMessage exampleMessage = some exampleMessageReduced ∧
      exampleMessage.noNil = true ∧
      stripTaskData exampleTask = some exampleTaskReduced ∧
      exampleTask.noNil = true) ∧
    MessageIs exampleMessage exampleMessageReduced ∧
    List.Forall₂ LogIs exampleTask.ActionsLogs exampleTaskReduced.ActionsLogs :=
  ⟨⟨by rfl, by rfl, by rfl, by rfl⟩,
    (redaction_keeps_only_identifiers exampleMessage exampleMessageReduced exampleTask
      exampleTaskReduced).1 (by rfl),
    (redaction_keeps_only_identifiers exampleMessage exampleMessageReduced exampleTask
      exampleTaskReduced).2.2.1 (by rfl)⟩

/-- C2: redaction is idempotent. For a task without nil log, node, user or activity entry,
`stripTaskData` returns a task on which `stripTaskData` returns that same task again; and
for every message, running `stripTaskMessage` on the result of `stripTaskMessage` gives
exactly the result of the first run (which exists when the message has no nil entry). -/
theorem redaction_idempotent (t : Task) (m : ActionMessage) (ht : t.noNil = true) :
    (∃ t1, stripTaskData t = some t1 ∧ stripTaskData t1 = some t1) ∧
    (stripTaskMessage m).bind stripTaskMessage = stripTaskMessage m ∧
    (m.noNil = true → ∃ m1, stripTaskMessage m = some m1 ∧ stripTaskMessage m1 = some m1) := by
  have key : ∀ m : ActionMessage, m.noNil = true →
      stripTaskMessage m.reduced = some m.reduced := by
    intro m h
    rw [stripTaskMessage_of_noNil _ (reduced_noNil m h), reduced_reduced]
  refine ⟨?_, ?_, ?_⟩
  · refine ⟨t.reduced, stripTaskData_of_noNil t ht, ?_⟩
    rw [stripTaskData_of_noNil _ (task_reduced_noNil t ht), task_reduced_reduced]
  · cases h : stripTaskMessage m with
    | none => rfl
    | some m1 =>
      obtain ⟨a, b⟩ := stripTaskMessage_some m m1 h
      subst b
      simpa using key m a
  · intro h
    exact ⟨m.reduced, stripTaskMessage_of_noNil m h, key m h⟩

/-- Witness of C2 on `exampleTask` and `exampleMessage`. -/
theorem redaction_idempotent_witness :
    (exampleTask.noNil = true ∧ exampleMessage.noNil = true) ∧
    (∃ t1, stripTaskData exampleTask = some t1 ∧ stripTaskData t1 = some t1) ∧
    (stripTaskMessage exampleMessage).bind stripTaskMessage = stripTaskMessage exampleMessage ∧
    (∃ m1, stripTaskMessage exampleMessage = some m1 ∧ stripTaskMessage m1 = some m1) :=
  ⟨⟨by rfl, by rfl⟩, (redaction_idempotent exampleTask exampleMessage (by rfl)).1,
    (redaction_idempotent exampleTask exampleMessage (by rfl)).2.1,
    (redaction_idempotent exampleTask exampleMessage (by rfl)).2.2 (by rfl)⟩

/-! ## Migration: lemmas -/

theorem counters_step (a b : Int) (n : Nat) :
    Counters.set (Counters.set (counted a b) "Jobs" (Counters.get (counted a b) "Jobs" + 1))
        "Tasks"
        (Counters.get (Counters.set (counted a b) "Jobs"
          (Counters.get (counted a b) "Jobs" + 1)) "Tasks" + (n : Int)) =
      counted (a + 1) (b + n) := by
  simp [counted, Counters.set, Counters.get]

theorem acceptAll_append {σ : Type} (d : DAO σ) (s : σ) (xs ys : List Write) :
    acceptAll d s (xs ++ ys) = (acceptAll d s xs).bind (fun s1 => acceptAll d s1 ys) := by
  induction xs generalizing s with
  | nil => rfl
  | cons w ws ih =>
    rcases h : issue d s w with ⟨s1, _ | e⟩
    · simp [acceptAll, h, ih]
    · simp [acceptAll, h]

theorem acceptAll_append_some {σ : Type} (d : DAO σ) (s s2 : σ) (xs ys : List Write)
    (h : acceptAll d s (xs ++ ys) = some s2) :
    ∃ s1, acceptAll d s xs = some s1 ∧ acceptAll d s1 ys = some s2 := by
  rw [acceptAll_append] at h
  cases h1 : acceptAll d s xs with
  | none => simp [h1] at h
  | some s1 => exact ⟨s1, rfl, by simpa [h1] using h⟩

theorem putTasks_ok {σ : Type} (d : DAO σ) (ts : List Task) (s s1 : σ) (w : List Write)
    (h : acceptAll d s (ts.map Write.putTask) = some s1) :
    putTasks d ts s w = (s1, w ++ ts.map Write.putTask, none) := by
  induction ts generalizing s w with
  | nil =>
    simp only [List.map_nil, acceptAll, Option.some.injEq] at h
    simp [putTasks, h]
  | cons ta rest ih =>
    rcases hp : d.PutTask s ta with ⟨s2, _ | e⟩
    · simp only [List.map_cons, acceptAll, issue, hp] at h
      simp [putTasks, hp, ih s2 _ h]
    · simp [acceptAll, issue, hp] at h

theorem putTasks_fail {σ : Type} (d : DAO σ) (ts : List Task) (s s2 s3 : σ)
    (w wpre wpost : List Write) (wfail : Write) (e : Error)
    (hsplit : ts.map Write.putTask = wpre ++ wfail :: wpost)
    (hpre : acceptAll d s wpre = some s2) (hfail : issue d s2 wfail = (s3, some e)) :
    putTasks d ts s w = (s3, w ++ wpre ++ [wfail], some e) := by
  induction ts generalizing s w wpre with
  | nil => simp at hsplit
  | cons ta rest ih =>
    cases wpre with
    | nil =>
      simp only [List.map_cons, List.nil_append, List.cons.injEq] at hsplit
      simp only [acceptAll, Option.some.injEq] at hpre
      subst hpre
      rw [← hsplit.1] at hfail
      simp only [issue] at hfail
      simp [putTasks, hfail, hsplit.1]
    | cons w1 wpre1 =>
      simp only [List.map_cons, List.cons_append, List.cons.injEq] at hsplit
      obtain ⟨hw, hrest⟩ := hsplit
      subst hw
      rcases hp : d.PutTask s ta with ⟨s1, _ | e1⟩
      · simp only [acceptAll, issue, hp] at hpre
        simp [putTasks, hp, ih s1 _ wpre1 hrest hpre]
      · simp [acceptAll, issue, hp] at hpre

theorem migrateLoop_job {σ : Type} (d : DAO σ) (dryRun : Bool) (j : Job) (rest : List Recv)
    (a b : Int) (s : σ) (w : List Write) :
    migrateLoop d dryRun (Recv.job (some j) :: rest) (counted a b) s w =
      if dryRun then migrateLoop d dryRun rest (counted (a + 1) (b + j.Tasks.length)) s w
      else
        match d.PutJob s j with
        | (s1, some e) =>
          some ⟨some (counted (a + 1) (b + j.Tasks.length)), some e, s1, true,
            w ++ [Write.putJob j]⟩
        | (s1, none) =>
          match putTasks d j.Tasks s1 (w ++ [Write.putJob j]) with
          | (s2, w2, some er) =>
            some ⟨some (counted (a + 1) (b + j.Tasks.length)), some er, s2, true, w2⟩
          | (s2, w2, none) =>
            migrateLoop d dryRun rest (counted (a + 1) (b + j.Tasks.length)) s2 w2 := by
  simp only [migrateLoop, counters_step]

theorem migrateLoop_dry {σ : Type} (d : DAO σ) (js : List Job) (rest : List Recv)
    (a b : Int) (s : σ) (w : List Write) :
    migrateLoop d true (deliver js ++ Recv.done :: rest) (counted a b) s w =
      some ⟨some (counted (a + js.length) (b + totalTasks js)), none, s, true, w⟩ := by
  induction js generalizing a b with
  | nil => simp [deliver, migrateLoop, totalTasks]
  | cons j js ih =>
    have hd : deliver (j :: js) = Recv.job (some j) :: deliver js := rfl
    rw [hd, List.cons_append, migrateLoop_job, if_pos rfl, ih]
    simp only [totalTasks, List.length_cons, Nat.cast_add, Nat.cast_one]
    ring_nf

theorem migrateLoop_ok {σ : Type} (d : DAO σ) (js : List Job) (rest : List Recv)
    (a b : Int) (s s1 : σ) (w : List Write)
    (h : acceptAll d s (allWrites js) = some s1) :
    migrateLoop d false (deliver js ++ Recv.done :: rest) (counted a b) s w =
      some ⟨some (counted (a + js.length) (b + totalTasks js)), none, s1, true,
        w ++ allWrites js⟩ := by
  induction js generalizing a b s w with
  | nil =>
    simp only [allWrites, acceptAll, Option.some.injEq] at h
    simp [deliver, migrateLoop, totalTasks, allWrites, h]
  | cons j js ih =>
    have hd : deliver (j :: js) = Recv.job (some j) :: deliver js := rfl
    simp only [allWrites, jobWrites, List.cons_append] at h
    rcases hp : d.PutJob s j with ⟨s2, _ | e⟩
    · simp only [acceptAll, issue, hp] at h
      obtain ⟨s3, h1, h2⟩ := acceptAll_append_some d s2 s1 _ _ h
      rw [hd, List.cons_append, migrateLoop_job]
      simp only [Bool.false_eq_true, if_false, hp, putTasks_ok d j.Tasks s2 s3 _ h1]
      rw [ih _ _ s3 _ h2]
      simp only [totalTasks, List.length_cons, Nat.cast_add, Nat.cast_one, allWrites,
        jobWrites, List.append_assoc, List.singleton_append, List.cons_append,
        List.nil_append]
      ring_nf
    · simp [acceptAll, issue, hp] at h

theorem migrateLoop_fail {σ : Type} (d : DAO σ) (pre : List Job) (jk : Job)
    (tail : List Recv) (a b : Int) (s s2 s3 : σ) (w wpre wpost : List Write) (wfail : Write)
    (e : Error)
    (hpre : acceptAll d s (allWrites pre ++ wpre) = some s2)
    (hfail : issue d s2 wfail = (s3, some e))
    (hsplit : jobWrites jk = wpre ++ wfail :: wpost) :
    migrateLoop d false (deliver pre ++ Recv.job (some jk) :: tail) (counted a b) s w =
      some ⟨some (counted (a + (pre.length + 1 : Nat)) (b + (totalTasks pre + jk.Tasks.length))),
        some e, s3, true, w ++ allWrites pre ++ wpre ++ [wfail]⟩ := by
  induction pre generalizing a b s w with
  | nil =>
    simp only [allWrites, List.nil_append] at hpre
    simp only [deliver, List.map_nil, List.nil_append, migrateLoop_job, Bool.false_eq_true,
      if_false, List.length_nil, totalTasks, allWrites, List.append_nil, zero_add,
      Nat.cast_one]
    cases wpre with
    | nil =>
      simp only [jobWrites, List.nil_append, List.cons.injEq] at hsplit
      simp only [acceptAll, Option.some.injEq] at hpre
      subst hpre
      rw [← hsplit.1] at hfail
      simp only [issue] at hfail
      simp [hfail, hsplit.1]
    | cons w1 wpre1 =>
      simp only [jobWrites, List.cons_append, List.cons.injEq] at hsplit
      obtain ⟨hw, hrest⟩ := hsplit
      subst hw
      rcases hp : d.PutJob s jk with ⟨s1, _ | e1⟩
      · simp only [acceptAll, issue, hp] at hpre
        simp [putTasks_fail d jk.Tasks s1 s2 s3 _ wpre1 wpost wfail e hrest hpre hfail]
      · simp [acceptAll, issue, hp] at hpre
  | cons j pre ih =>
    have hd : deliver (j :: pre) = Recv.job (some j) :: deliver pre := rfl
    simp only [allWrites, jobWrites, List.cons_append, List.append_assoc] at hpre
    rcases hp : d.PutJob s j with ⟨s1, _ | e1⟩
    · simp only [acceptAll, issue, hp] at hpre
      obtain ⟨s4, h1, h2⟩ := acceptAll_append_some d s1 s2 _ _ hpre
      rw [hd, List.cons_append, migrateLoop_job]
      simp only [Bool.false_eq_true, if_false, hp, putTasks_ok d j.Tasks s1 s4 _ h1]
      rw [ih _ _ s4 _ h2]
      simp only [totalTasks, List.length_cons, Nat.cast_add, Nat.cast_one, allWrites,
        jobWrites, List.append_assoc, List.singleton_append, List.cons_append,
        List.nil_append]
      ring_nf
    · simp [acceptAll, issue, hp] at hpre

theorem migrateLoop_returns {σ : Type} (d : DAO σ) (js : List Job) (rest : List Recv)
    (a b : Int) (s : σ) (w : List Write) :
    ∃ r, migrateLoop d false (deliver js ++ Recv.done :: rest) (counted a b) s w = some r ∧
      (r.err = none → r.out = some (counted (a + js.length) (b + totalTasks js))) := by
  induction js generalizing a b s w with
  | nil => exact ⟨_, rfl, fun _ => by simp [totalTasks]⟩
  | cons j js ih =>
    have hd : deliver (j :: js) = Recv.job (some j) :: deliver js := rfl
    rw [hd, List.cons_append, migrateLoop_job]
    simp only [Bool.false_eq_true, if_false]
    rcases hp : d.PutJob s j with ⟨s1, _ | e⟩
    · dsimp only
      rcases ht : putTasks d j.Tasks s1 (w ++ [Write.putJob j]) with ⟨s2, w2, _ | er⟩
      · dsimp only
        obtain ⟨r, hr, hout⟩ := ih (a + 1) (b + j.Tasks.length) s2 w2
        refine ⟨r, hr, fun hn => ?_⟩
        rw [hout hn]
        simp only [totalTasks, List.length_cons, Nat.cast_add, Nat.cast_one]
        ring_nf
      · exact ⟨_, rfl, fun hn => by simp at hn⟩
    · exact ⟨_, rfl, fun hn => by simp at hn⟩

theorem Migrate_eq_loop {σ₁ σ₂ : Type} (f : Handle σ₁) (t : Handle σ₂) (fromDAO : DAO σ₁)
    (toDAO : DAO σ₂) (dryRun : Bool) (sf : σ₁) (st : σ₂) (events : List Recv)
    (hf : Supported f fromDAO) (ht : Supported t toDAO)
    (hlist : unfiltered fromDAO sf = Except.ok events) :
    Migrate f t dryRun sf st = migrateLoop toDAO dryRun events (counted 0 0) st [] := by
  unfold Supported at hf ht
  unfold unfiltered at hlist
  simp only [Migrate, hf, ht, hlist, counted]

theorem acceptAll_of_accepting {σ : Type} (d : DAO σ)
    (hacc : ∀ s w, (issue d s w).2 = none) (ws : List Write) (s : σ) :
    ∃ s1, acceptAll d s ws = some s1 := by
  induction ws generalizing s with
  | nil => exact ⟨s, rfl⟩
  | cons w ws ih =>
    rcases h : issue d s w with ⟨s1, _ | e⟩
    · obtain ⟨s2, h2⟩ := ih s1
      exact ⟨s2, by simp [acceptAll, h, h2]⟩
    · have := hacc s w
      simp [h] at this

theorem Migrate_abort {σ₁ σ₂ : Type} (f : Handle σ₁) (t : Handle σ₂) (fromDAO : DAO σ₁)
    (toDAO : DAO σ₂) (sf : σ₁) (st s2 s3 : σ₂) (pre : List Job) (jk : Job) (tail : List Recv)
    (wpre wpost : List Write) (wfail : Write) (e : Error)
    (hf : Supported f fromDAO) (ht : Supported t toDAO)
    (hlist : unfiltered fromDAO sf = Except.ok (deliver pre ++ Recv.job (some jk) :: tail))
    (hpre : acceptAll toDAO st (allWrites pre ++ wpre) = some s2)
    (hfail : issue toDAO s2 wfail = (s3, some e))
    (hsplit : jobWrites jk = wpre ++ wfail :: wpost) :
    Migrate f t false sf st =
      some ⟨some (counted ((pre.length + 1 : Nat) : Int) (totalTasks pre + jk.Tasks.length)),
        some e, s3, true, allWrites pre ++ wpre ++ [wfail]⟩ := by
  rw [Migrate_eq_loop f t fromDAO toDAO false sf st _ hf ht hlist,
    migrateLoop_fail toDAO pre jk tail 0 0 st s2 s3 [] wpre wpost wfail e hpre hfail hsplit]
  simp

/-! ## Migration: counters, dry run, abort -/

/-- C3: when both handles are supported, the unfiltered enumeration of the source delivers
the jobs `js` before completion is signalled, and the destination accepts every write,
`Migrate(source, destination, dryRun=false)` returns no error and the counter map with
exactly the keys "Jobs" and "Tasks", where Jobs is the number of jobs delivered and Tasks the
sum of `len(j.Tasks)` over them. -/
theorem Migrate_counters {σ₁ σ₂ : Type} (f : Handle σ₁) (t : Handle σ₂) (fromDAO : DAO σ₁)
    (toDAO : DAO σ₂) (sf : σ₁) (st : σ₂) (js : List Job) (rest : List Recv)
    (hf : Supported f fromDAO) (ht : Supported t toDAO)
    (hlist : unfiltered fromDAO sf = Except.ok (deliver js ++ Recv.done :: rest))
    (hacc : ∀ s w, (issue toDAO s w).2 = none) :
    ∃ r, Migrate f t false sf st = some r ∧ r.err = none ∧
      r.out = some [("Jobs", (js.length : Int)), ("Tasks", totalTasks js)] ∧
      (r.out.map Counters.keys = some ["Jobs", "Tasks"]) := by
  obtain ⟨s1, h1⟩ := acceptAll_of_accepting toDAO hacc (allWrites js) st
  rw [Migrate_eq_loop f t fromDAO toDAO false sf st _ hf ht hlist,
    migrateLoop_ok toDAO js rest 0 0 st s1 [] h1]
  exact ⟨_, rfl, rfl, by simp [counted], by simp [counted, Counters.keys]⟩

/-- Witness of C3: two jobs with three tasks, from a bolt source to an in-memory mongo
destination. -/
theorem Migrate_counters_witness :
    ∃ r, Migrate (Handle.boltdb (listingDAO (deliver exampleJobs ++ [Recv.done])))
        (Handle.mongodb memDAO) false () {} = some r ∧ r.err = none ∧
      r.out = some [("Jobs", ((exampleJobs.length : Nat) : Int)), ("Tasks", totalTasks exampleJobs)] ∧
      (r.out.map Counters.keys = some ["Jobs", "Tasks"]) :=
  Migrate_counters (Handle.boltdb (listingDAO (deliver exampleJobs ++ [Recv.done])))
    (Handle.mongodb memDAO) (listingDAO (deliver exampleJobs ++ [Recv.done])) memDAO () {}
    exampleJobs [] rfl rfl rfl (fun s w => by cases w <;> rfl)

/-- C4: with supported handles and an enumeration that delivers the jobs `js` before
completion is signalled, `Migrate(source, destination, dryRun=true)` issues no `PutJob` and
no `PutTask` and leaves the destination state unchanged, counts every delivered job and its
tasks, and returns no error; and the call with `dryRun=false` on the same enumeration
returns, with the same counters whenever it returns no error. -/
theorem Migrate_dryRun {σ₁ σ₂ : Type} (f : Handle σ₁) (t : Handle σ₂) (fromDAO : DAO σ₁)
    (toDAO : DAO σ₂) (sf : σ₁) (st : σ₂) (js : List Job) (rest : List Recv)
    (hf : Supported f fromDAO) (ht : Supported t toDAO)
    (hlist : unfiltered fromDAO sf = Except.ok (deliver js ++ Recv.done :: rest)) :
    Migrate f t true sf st =
        some ⟨some [("Jobs", (js.length : Int)), ("Tasks", totalTasks js)], none, st, true, []⟩ ∧
    ∃ r, Migrate f t false sf st = some r ∧
      (r.err = none → some r.out = (Migrate f t true sf st).map MigrateResult.out) := by
  have hdry : Migrate f t true sf st =
      some ⟨some [("Jobs", (js.length : Int)), ("Tasks", totalTasks js)], none, st, true, []⟩ := by
    rw [Migrate_eq_loop f t fromDAO toDAO true sf st _ hf ht hlist,
      migrateLoop_dry toDAO js rest 0 0 st []]
    simp [counted]
  refine ⟨hdry, ?_⟩
  obtain ⟨r, hr, hout⟩ := migrateLoop_returns toDAO js rest 0 0 st []
  refine ⟨r, ?_, fun hn => ?_⟩
  · rw [Migrate_eq_loop f t fromDAO toDAO false sf st _ hf ht hlist, hr]
  · rw [hdry, hout hn]
    simp [counted]

/-- Witness of C4: the dry run of two jobs with three tasks onto a destination that has no
room for any write. -/
theorem Migrate_dryRun_witness :
    Migrate (Handle.boltdb (listingDAO (deliver exampleJobs ++ [Recv.done])))
        (Handle.mongodb quotaDAO) true () 0 =
        some ⟨some [("Jobs", ((exampleJobs.length : Nat) : Int)), ("Tasks", totalTasks exampleJobs)],
          none, 0, true, []⟩ ∧
    ∃ r, Migrate (Handle.boltdb (listingDAO (deliver exampleJobs ++ [Recv.done])))
        (Handle.mongodb quotaDAO) false () 0 = some r ∧
      (r.err = none → some r.out =
        (Migrate (Handle.boltdb (listingDAO (deliver exampleJobs ++ [Recv.done])))
          (Handle.mongodb quotaDAO) true () 0).map MigrateResult.out) :=
  Migrate_dryRun (Handle.boltdb (listingDAO (deliver exampleJobs ++ [Recv.done])))
    (Handle.mongodb quotaDAO) (listingDAO (deliver exampleJobs ++ [Recv.done])) quotaDAO () 0
    exampleJobs [] rfl rfl rfl

/-- C5, as the code has it: when the first rejected destination write is one of the writes
for the `k`-th enumerated job (all earlier writes accepted, `dryRun=false`), `Migrate`
returns that error and the counters Jobs = `k` and Tasks = the sum of `len(j.Tasks)` over
the first `k` jobs: the failing job and all its embedded tasks are already counted, since
the counters are incremented when the job is received, before any write. Here `k` is
`pre.length + 1`. -/
theorem Migrate_abort_counters {σ₁ σ₂ : Type} (f : Handle σ₁) (t : Handle σ₂)
    (fromDAO : DAO σ₁) (toDAO : DAO σ₂) (sf : σ₁) (st s2 s3 : σ₂) (pre : List Job) (jk : Job)
    (tail : List Recv) (wpre wpost : List Write) (wfail : Write) (e : Error)
    (hf : Supported f fromDAO) (ht : Supported t toDAO)
    (hlist : unfiltered fromDAO sf = Except.ok (deliver pre ++ Recv.job (some jk) :: tail))
    (hpre : acceptAll toDAO st (allWrites pre ++ wpre) = some s2)
    (hfail : issue toDAO s2 wfail = (s3, some e))
    (hsplit : jobWrites jk = wpre ++ wfail :: wpost) :
    ∃ r, Migrate f t false sf st = some r ∧ r.err = some e ∧
      r.out = some [("Jobs", ((pre.length + 1 : Nat) : Int)),
        ("Tasks", totalTasks pre + jk.Tasks.length)] := by
  rw [Migrate_abort f t fromDAO toDAO sf st s2 s3 pre jk tail wpre wpost wfail e hf ht hlist
    hpre hfail hsplit]
  exact ⟨_, rfl, rfl, rfl⟩

/-- Witness of C5 as amended: the destination has room for three writes, so the first job
and its two tasks are written and `PutJob` of the second job is rejected. -/
theorem Migrate_abort_counters_witness :
    ∃ r, Migrate (Handle.boltdb (listingDAO (deliver exampleJobs ++ [Recv.done])))
        (Handle.mongodb quotaDAO) false () 3 = some r ∧
      r.err = some (Error.Storage "disk full") ∧
      r.out = some [("Jobs", ((1 + 1 : Nat) : Int)), ("Tasks", totalTasks [exampleJob1] + 1)] :=
  Migrate_abort_counters (Handle.boltdb (listingDAO (deliver exampleJobs ++ [Recv.done])))
    (Handle.mongodb quotaDAO) (listingDAO (deliver exampleJobs ++ [Recv.done])) quotaDAO () 3 0 0
    [exampleJob1] exampleJob2 [Recv.done] [] [Write.putTask exampleTask3]
    (Write.putJob exampleJob2) (Error.Storage "disk full") rfl rfl rfl rfl rfl rfl

/-- Counterexample to C5 as stated: the destination rejects the write of the 2nd of two
enumerated jobs (`k = 2`); `Migrate` returns the error with Jobs = 2, not `k - 1 = 1`, and
the counters are those of the full corpus (2 jobs, 3 tasks). -/
theorem Migrate_abort_counters_counterexample :
    Migrate (Handle.boltdb (listingDAO (deliver exampleJobs ++ [Recv.done])))
        (Handle.mongodb quotaDAO) false () 3 =
      some ⟨some [("Jobs", 2), ("Tasks", 3)], some (Error.Storage "disk full"), 0, true,
        allWrites [exampleJob1] ++ [Write.putJob exampleJob2]⟩ ∧
    Counters.get [("Jobs", 2), ("Tasks", 3)] "Jobs" ≠ 2 - 1 ∧
    [("Jobs", (2 : Int)), ("Tasks", (3 : Int))] =
      [("Jobs", (exampleJobs.length : Int)), ("Tasks", totalTasks exampleJobs)] :=
  ⟨by rfl, by decide, by rfl⟩

/-- C6: when `dryRun=false` and the first failing destination write `wfail` (a `PutJob` or a
`PutTask`) occurs while processing the `k`-th enumerated job, `Migrate` returns with exactly
the error of that write and a non-nil counter map; the writes it issued are all the writes
of the jobs 1..k-1 (each job's `PutJob` and a `PutTask` for each of its tasks), then the
writes of job `k` up to and including the failing one, which is a prefix of the writes of
job `k`; nothing is written after the failing call, and the destination is left in the
state that call left it in. -/
theorem Migrate_abort_prefix {σ₁ σ₂ : Type} (f : Handle σ₁) (t : Handle σ₂)
    (fromDAO : DAO σ₁) (toDAO : DAO σ₂) (sf : σ₁) (st s2 s3 : σ₂) (pre : List Job) (jk : Job)
    (tail : List Recv) (wpre wpost : List Write) (wfail : Write) (e : Error)
    (hf : Supported f fromDAO) (ht : Supported t toDAO)
    (hlist : unfiltered fromDAO sf = Except.ok (deliver pre ++ Recv.job (some jk) :: tail))
    (hpre : acceptAll toDAO st (allWrites pre ++ wpre) = some s2)
    (hfail : issue toDAO s2 wfail = (s3, some e))
    (hsplit : jobWrites jk = wpre ++ wfail :: wpost) :
    ∃ r, Migrate f t false sf st = some r ∧ r.err = some e ∧ r.out ≠ none ∧
      r.writes = allWrites pre ++ (wpre ++ [wfail]) ∧
      (wpre ++ [wfail]) <+: jobWrites jk ∧ r.dest = s3 := by
  rw [Migrate_abort f t fromDAO toDAO sf st s2 s3 pre jk tail wpre wpost wfail e hf ht hlist
    hpre hfail hsplit]
  refine ⟨_, rfl, rfl, by simp, by simp, ?_, rfl⟩
  rw [hsplit]
  exact ⟨wpost, by simp⟩

/-- Witness of C6: the destination has room for four writes, so the first job is written
completely, and of the second job `PutJob` is accepted and its only `PutTask` rejected. -/
theorem Migrate_abort_prefix_witness :
    ∃ r, Migrate (Handle.mongodb (listingDAO (deliver exampleJobs ++ [Recv.done])))
        (Handle.boltdb quotaDAO) false () 4 = some r ∧
      r.err = some (Error.Storage "disk full") ∧ r.out ≠ none ∧
      r.writes = allWrites [exampleJob1] ++
        ([Write.putJob exampleJob2] ++
          [Write.putTask exampleTask3]) ∧
      ([Write.putJob exampleJob2] ++
          [Write.putTask exampleTask3]) <+:
        jobWrites exampleJob2 ∧
      r.dest = 0 :=
  Migrate_abort_prefix (Handle.mongodb (listingDAO (deliver exampleJobs ++ [Recv.done])))
    (Handle.boltdb quotaDAO) (listingDAO (deliver exampleJobs ++ [Recv.done])) quotaDAO () 4 0 0
    [exampleJob1] exampleJob2 [Recv.done] [Write.putJob exampleJob2] []
    (Write.putTask exampleTask3) (Error.Storage "disk full") rfl rfl rfl rfl rfl rfl

/-- C8: `NewDAO` returns an adapter and no error for a boltdb or a mongodb handle, and for
any other handle a nil adapter with the `UnsupportedDriver` error of that handle. `Migrate`
returns that error with the counters `Jobs: 0, Tasks: 0`, without calling `ListJobs` on the
source and without any destination write, for either value of `dryRun`, when the source
handle is unsupported (whatever the destination handle is: the source is checked first) and
when the source handle is supported and the destination handle is unsupported. -/
theorem unsupported_backend {σ₁ σ₂ : Type} (v : DAO σ₁) (d : String) (t : Handle σ₂)
    (dryRun : Bool) (sf : σ₁) (st : σ₂) :
    (∃ a, NewDAO (Handle.boltdb v) = (some a, none)) ∧
    (∃ a, NewDAO (Handle.mongodb v) = (some a, none)) ∧
    NewDAO (Handle.other d : Handle σ₁) = (none, some (Error.UnsupportedDriver d)) ∧
    Migrate (Handle.other d : Handle σ₁) t dryRun sf st =
      some ⟨some [("Jobs", 0), ("Tasks", 0)], some (Error.UnsupportedDriver d), st, false, []⟩ ∧
    Migrate (Handle.boltdb v) (Handle.other d : Handle σ₂) dryRun sf st =
      some ⟨some [("Jobs", 0), ("Tasks", 0)], some (Error.UnsupportedDriver d), st, false, []⟩ ∧
    Migrate (Handle.mongodb v) (Handle.other d : Handle σ₂) dryRun sf st =
      some ⟨some [("Jobs", 0), ("Tasks", 0)], some (Error.UnsupportedDriver d), st, false, []⟩ :=
  ⟨⟨v, rfl⟩, ⟨v, rfl⟩, rfl, rfl, rfl, rfl⟩

/-- C10: when both handles are supported and the `ListJobs` call of the source returns an
error, `Migrate` returns exactly that error and a nil counter map, issues no destination
write and leaves the destination state unchanged, for either value of `dryRun`. -/
theorem Migrate_list_error {σ₁ σ₂ : Type} (f : Handle σ₁) (t : Handle σ₂)
    (fromDAO : DAO σ₁) (toDAO : DAO σ₂) (dryRun : Bool) (sf : σ₁) (st : σ₂) (er : Error)
    (hf : Supported f fromDAO) (ht : Supported t toDAO)
    (hlist : unfiltered fromDAO sf = Except.error er) :
    Migrate f t dryRun sf st = some ⟨none, some er, st, true, []⟩ := by
  unfold Supported at hf ht
  unfold unfiltered at hlist
  simp only [Migrate, hf, ht, hlist]

/-- Witness of C10: a source whose `ListJobs` fails, onto an in-memory destination. -/
theorem Migrate_list_error_witness :
    Migrate (Handle.boltdb brokenDAO) (Handle.mongodb memDAO) false () {} =
      some ⟨none, some (Error.Storage "cannot open bucket"), {}, true, []⟩ :=
  Migrate_list_error (Handle.boltdb brokenDAO) (Handle.mongodb memDAO) brokenDAO memDAO false
    () {} (Error.Storage "cannot open bucket") rfl rfl rfl

/-! ## Migration: write order and what an upsert destination ends up holding -/

theorem upsert_new {α κ : Type} [DecidableEq κ] (key : α → κ) (x : α) (ys : List α)
    (h : key x ∉ ys.map key) : upsert key x ys = ys ++ [x] := by
  induction ys with
  | nil => rfl
  | cons y ys ih =>
    simp only [List.map_cons, List.mem_cons, not_or] at h
    have hne : ¬ key y = key x := fun hk => h.1 hk.symm
    simp [upsert, hne, ih h.2]

theorem foldl_upsert_new {α κ : Type} [DecidableEq κ] (key : α → κ) (xs acc : List α)
    (h : (acc.map key ++ xs.map key).Nodup) :
    xs.foldl (fun acc x => upsert key x acc) acc = acc ++ xs := by
  induction xs generalizing acc with
  | nil => simp
  | cons x xs ih =>
    have hx : key x ∉ acc.map key := by
      intro hmem
      have := (List.nodup_append.1 h).2.2
      exact this hmem (by simp)
    have hnd : ((acc ++ [x]).map key ++ xs.map key).Nodup := by
      simpa [List.append_assoc] using h
    rw [List.foldl_cons, upsert_new key x acc hx, ih _ hnd]
    simp

theorem upsert_present {α κ : Type} [DecidableEq κ] (key : α → κ) (x : α) (ys : List α)
    (hnd : (ys.map key).Nodup) (hx : x ∈ ys) : upsert key x ys = ys := by
  induction ys with
  | nil => simp at hx
  | cons y ys ih =>
    simp only [List.map_cons, List.nodup_cons] at hnd
    by_cases hk : key y = key x
    · have hxy : x = y := by
        rcases List.mem_cons.1 hx with h | h
        · exact h
        · exact absurd (hk ▸ List.mem_map_of_mem key h) hnd.1
      simp [upsert, hk, hxy]
    · have hne : x ≠ y := fun h => hk (by rw [h])
      have hmem : x ∈ ys := by
        rcases List.mem_cons.1 hx with h | h
        · exact absurd h hne
        · exact h
      simp [upsert, hk, ih hnd.2 hmem]

theorem upsertAll_present {α κ : Type} [DecidableEq κ] (key : α → κ) (xs ys : List α)
    (hnd : (ys.map key).Nodup) (hx : ∀ x ∈ xs, x ∈ ys) : upsertAll key xs ys = ys := by
  unfold upsertAll
  induction xs with
  | nil => rfl
  | cons x xs ih =>
    rw [List.foldl_cons, upsert_present key x ys hnd (hx x (by simp))]
    exact ih (fun z hz => hx z (by simp [hz]))

theorem upsertAll_new {α κ : Type} [DecidableEq κ] (key : α → κ) (xs acc : List α)
    (h : (acc.map key ++ xs.map key).Nodup) : upsertAll key xs acc = acc ++ xs :=
  foldl_upsert_new key xs acc h

theorem upsert_map {α β κ : Type} [DecidableEq κ] (key : α → κ) (key1 : β → κ) (g : α → β)
    (hk : ∀ a, key1 (g a) = key a) (x : α) (xs : List α) :
    (upsert key x xs).map g = upsert key1 (g x) (xs.map g) := by
  induction xs with
  | nil => rfl
  | cons y ys ih =>
    by_cases h : key y = key x
    · simp [upsert, h, hk]
    · simp [upsert, h, hk, ih]

theorem upsertAll_map {α β κ : Type} [DecidableEq κ] (key : α → κ) (key1 : β → κ) (g : α → β)
    (hk : ∀ a, key1 (g a) = key a) (xs acc : List α) :
    (upsertAll key xs acc).map g = upsertAll key1 (xs.map g) (acc.map g) := by
  unfold upsertAll
  induction xs generalizing acc with
  | nil => rfl
  | cons x xs ih =>
    simp only [List.foldl_cons, List.map_cons]
    rw [ih, upsert_map key key1 g hk]

theorem memDAO_upsertByIdentifier :
    UpsertByIdentifier memDAO (fun s => s.jobs.map Job.ID) (fun s => s.tasks.map Task.entry) := by
  constructor
  · intro s j s1 h
    simp only [memDAO, Prod.mk.injEq, and_true] at h
    subst h
    exact ⟨upsert_map Job.ID id Job.ID (fun _ => rfl) j s.jobs, Or.inl rfl⟩
  · intro s ta s1 h
    simp only [memDAO, Prod.mk.injEq, and_true] at h
    subst h
    exact ⟨rfl, upsert_map Task.key Prod.fst Task.entry (fun _ => rfl) ta s.tasks⟩

theorem memEmbedDAO_upsertByIdentifier :
    UpsertByIdentifier memEmbedDAO (fun s => s.jobs.map Job.ID)
      (fun s => s.tasks.map Task.entry) := by
  constructor
  · intro s j s1 h
    simp only [memEmbedDAO, Prod.mk.injEq, and_true] at h
    subst h
    exact ⟨upsert_map Job.ID id Job.ID (fun _ => rfl) j s.jobs,
      Or.inr (upsertAll_map Task.key Prod.fst Task.entry (fun _ => rfl) j.Tasks s.tasks)⟩
  · intro s ta s1 h
    simp only [memEmbedDAO, Prod.mk.injEq, and_true] at h
    subst h
    exact ⟨rfl, upsert_map Task.key Prod.fst Task.entry (fun _ => rfl) ta s.tasks⟩

theorem upsert_putTasks {σ : Type} (d : DAO σ) (jobsOf : σ → List String)
    (tasksOf : σ → List ((String × String) × TaskStatus))
    (hup : UpsertByIdentifier d jobsOf tasksOf) (ts : List Task) (s s1 : σ)
    (h : acceptAll d s (ts.map Write.putTask) = some s1) :
    jobsOf s1 = jobsOf s ∧
      tasksOf s1 = upsertAll Prod.fst (ts.map Task.entry) (tasksOf s) := by
  induction ts generalizing s with
  | nil =>
    simp only [List.map_nil, acceptAll, Option.some.injEq] at h
    subst h
    exact ⟨rfl, rfl⟩
  | cons ta ts ih =>
    rcases hp : d.PutTask s ta with ⟨s2, _ | e⟩
    · simp only [List.map_cons, acceptAll, issue, hp] at h
      obtain ⟨h1, h2⟩ := ih s2 h
      obtain ⟨k1, k2⟩ := hup.2 s ta s2 hp
      rw [h1, h2, k1, k2]
      exact ⟨rfl, rfl⟩
    · simp [acceptAll, issue, hp] at h

theorem entry_keys (ts : List Task) :
    (ts.map Task.entry).map Prod.fst = ts.map Task.key := by
  induction ts with
  | nil => rfl
  | cons ta ts ih => simp [Task.entry, ih]

theorem upsert_migrated {σ : Type} (d : DAO σ) (jobsOf : σ → List String)
    (tasksOf : σ → List ((String × String) × TaskStatus))
    (hup : UpsertByIdentifier d jobsOf tasksOf) (js : List Job) (s s1 : σ)
    (h : acceptAll d s (allWrites js) = some s1)
    (hjn : (jobsOf s ++ js.map Job.ID).Nodup)
    (htn : ((tasksOf s).map Prod.fst ++ (allTasks js).map Task.key).Nodup) :
    jobsOf s1 = jobsOf s ++ js.map Job.ID ∧
      tasksOf s1 = tasksOf s ++ (allTasks js).map Task.entry := by
  induction js generalizing s with
  | nil =>
    simp only [allWrites, acceptAll, Option.some.injEq] at h
    subst h
    simp [allTasks]
  | cons j js ih =>
    simp only [allWrites, jobWrites, List.cons_append] at h
    rcases hp : d.PutJob s j with ⟨s2, _ | e⟩
    · simp only [acceptAll, issue, hp] at h
      obtain ⟨s3, h1, h2⟩ := acceptAll_append_some d s2 s1 _ _ h
      obtain ⟨kj, kt⟩ := hup.1 s j s2 hp
      obtain ⟨pj, pt⟩ := upsert_putTasks d jobsOf tasksOf hup j.Tasks s2 s3 h1
      simp only [List.map_cons, allTasks, List.map_append] at hjn htn
      -- the job identifier is new
      have hjnew : j.ID ∉ (jobsOf s).map id := by
        intro hmem
        have := (List.nodup_append.1 hjn).2.2
        exact this (by simpa using hmem) (by simp)
      have ej : jobsOf s3 = jobsOf s ++ [j.ID] := by
        rw [pj, kj]
        exact upsert_new id j.ID (jobsOf s) hjnew
      -- the tasks of the job are new and distinct
      have htn1 : ((tasksOf s).map Prod.fst ++ (j.Tasks.map Task.entry).map Prod.fst).Nodup := by
        rw [entry_keys]
        have := htn
        rw [← List.append_assoc] at this
        exact (List.nodup_append.1 this).1
      have et : tasksOf s3 = tasksOf s ++ j.Tasks.map Task.entry := by
        rw [pt]
        rcases kt with k | k
        · rw [k]
          exact upsertAll_new Prod.fst _ _ htn1
        · rw [k, upsertAll_new Prod.fst _ _ htn1]
          apply upsertAll_present
          · simpa [List.map_append] using htn1
          · intro x hx
            simp [hx]
      have hjn3 : (jobsOf s3 ++ js.map Job.ID).Nodup := by
        rw [ej]
        simpa [List.append_assoc] using hjn
      have htn3 : ((tasksOf s3).map Prod.fst ++ (allTasks js).map Task.key).Nodup := by
        rw [et, List.map_append, entry_keys]
        simpa [List.append_assoc] using htn
      obtain ⟨r1, r2⟩ := ih s3 h2 hjn3 htn3
      rw [r1, r2, ej, et]
      simp [allTasks]
    · simp [acceptAll, issue, hp] at h

theorem length_allTasks (js : List Job) : ((allTasks js).length : Int) = totalTasks js := by
  induction js with
  | nil => rfl
  | cons j js ih => simp [allTasks, totalTasks, ih]

/-- C7, as amended: when `dryRun=false` and no write fails, the destination writes issued by
`Migrate` are exactly, for each enumerated job in enumeration order, `PutJob(j)` followed by
`PutTask(ta)` for each `ta` of `j.Tasks` in list order, and nothing else, and no error is
returned. Consequently, when the destination has upsert-by-identifier semantics and started
empty, and the enumerated jobs have pairwise distinct identifiers and the enumerated tasks
pairwise distinct (job identifier, task identifier) pairs, it ends up holding exactly the
identifiers of the `M` enumerated jobs and the identifier and status of each of the `T`
enumerated tasks. -/
theorem Migrate_write_order {σ₁ σ₂ : Type} (f : Handle σ₁) (t : Handle σ₂) (fromDAO : DAO σ₁)
    (toDAO : DAO σ₂) (sf : σ₁) (st s1 : σ₂) (js : List Job) (rest : List Recv)
    (jobsOf : σ₂ → List String) (tasksOf : σ₂ → List ((String × String) × TaskStatus))
    (hf : Supported f fromDAO) (ht : Supported t toDAO)
    (hlist : unfiltered fromDAO sf = Except.ok (deliver js ++ Recv.done :: rest))
    (hacc : acceptAll toDAO st (allWrites js) = some s1) :
    (∃ r, Migrate f t false sf st = some r ∧ r.err = none ∧ r.writes = allWrites js ∧
      r.dest = s1) ∧
    (UpsertByIdentifier toDAO jobsOf tasksOf → jobsOf st = [] → tasksOf st = [] →
      (js.map Job.ID).Nodup → ((allTasks js).map Task.key).Nodup →
      jobsOf s1 = js.map Job.ID ∧ tasksOf s1 = (allTasks js).map Task.entry ∧
      (jobsOf s1).length = js.length ∧ ((tasksOf s1).length : Int) = totalTasks js) := by
  constructor
  · rw [Migrate_eq_loop f t fromDAO toDAO false sf st _ hf ht hlist,
      migrateLoop_ok toDAO js rest 0 0 st s1 [] hacc]
    exact ⟨_, rfl, rfl, by simp, rfl⟩
  · intro hup hj0 ht0 hjn htn
    obtain ⟨e1, e2⟩ := upsert_migrated toDAO jobsOf tasksOf hup js st s1 hacc
      (by rw [hj0]; simpa using hjn) (by rw [ht0]; simpa using htn)
    rw [hj0] at e1
    rw [ht0] at e2
    simp only [List.nil_append] at e1 e2
    refine ⟨e1, e2, by simp [e1], ?_⟩
    rw [e2, List.length_map]
    exact length_allTasks js

/-- Witness of C7 as amended: two jobs with three tasks migrated into an empty in-memory
store, one whose `PutJob` leaves the tasks alone and one whose `PutJob` persists the
embedded tasks. -/
theorem Migrate_write_order_witness :
    (∃ r, Migrate (Handle.boltdb (listingDAO (deliver exampleJobs ++ [Recv.done])))
        (Handle.mongodb memDAO) false () {} = some r ∧ r.err = none ∧
      r.writes = allWrites exampleJobs ∧
      r.dest = exampleMigrated) ∧
    ((exampleJobs.map Job.ID).Nodup ∧ ((allTasks exampleJobs).map Task.key).Nodup) ∧
    (exampleMigrated.jobs.map Job.ID = ["j1", "j2"] ∧
      exampleMigrated.tasks.map Task.entry =
        [(("j1", "t1"), TaskStatus.Finished), (("j1", "t2"), TaskStatus.Error),
          (("j2", "t1"), TaskStatus.Running)] ∧
      (exampleMigrated.jobs.map Job.ID).length = 2 ∧
      ((exampleMigrated.tasks.map Task.entry).length : Int) = 3) ∧
    (∃ r, Migrate (Handle.boltdb (listingDAO (deliver exampleJobs ++ [Recv.done])))
        (Handle.mongodb memEmbedDAO) false () {} = some r ∧ r.err = none ∧
      r.writes = allWrites exampleJobs ∧
      r.dest = exampleMigrated) ∧
    exampleMigrated.tasks.map Task.entry = (allTasks exampleJobs).map Task.entry :=
  ⟨(Migrate_write_order (Handle.boltdb (listingDAO (deliver exampleJobs ++ [Recv.done])))
      (Handle.mongodb memDAO) (listingDAO (deliver exampleJobs ++ [Recv.done])) memDAO () {}
      exampleMigrated exampleJobs []
      (fun s => s.jobs.map Job.ID) (fun s => s.tasks.map Task.entry) rfl rfl rfl rfl).1,
    ⟨by decide, by decide⟩,
    (Migrate_write_order (Handle.boltdb (listingDAO (deliver exampleJobs ++ [Recv.done])))
      (Handle.mongodb memDAO) (listingDAO (deliver exampleJobs ++ [Recv.done])) memDAO () {}
      exampleMigrated exampleJobs []
      (fun s => s.jobs.map Job.ID) (fun s => s.tasks.map Task.entry) rfl rfl rfl rfl).2
      memDAO_upsertByIdentifier rfl rfl (by decide) (by decide),
    (Migrate_write_order (Handle.boltdb (listingDAO (deliver exampleJobs ++ [Recv.done])))
      (Handle.mongodb memEmbedDAO) (listingDAO (deliver exampleJobs ++ [Recv.done]))
      memEmbedDAO () {} exampleMigrated exampleJobs []
      (fun s => s.jobs.map Job.ID) (fun s => s.tasks.map Task.entry) rfl rfl rfl rfl).1,
    ((Migrate_write_order (Handle.boltdb (listingDAO (deliver exampleJobs ++ [Recv.done])))
      (Handle.mongodb memEmbedDAO) (listingDAO (deliver exampleJobs ++ [Recv.done]))
      memEmbedDAO () {} exampleMigrated exampleJobs []
      (fun s => s.jobs.map Job.ID) (fun s => s.tasks.map Task.entry) rfl rfl rfl rfl).2
      memEmbedDAO_upsertByIdentifier rfl rfl (by decide) (by decide)).2.1⟩

/-- Counterexample to C7 as stated: the enumeration delivers the same job twice (`M = 2`
jobs with `T = 2` tasks are counted) and no write fails; the destination has
upsert-by-identifier semantics and started empty, and ends up holding one job and one task,
not the 2 jobs and 2 tasks that were enumerated. -/
theorem Migrate_write_order_counterexample :
    Migrate (Handle.boltdb (listingDAO (deliver [exampleJob2, exampleJob2] ++ [Recv.done])))
        (Handle.mongodb memDAO) false () {} =
      some ⟨some [("Jobs", 2), ("Tasks", 2)], none,
        { jobs := [exampleJob2], tasks := [exampleTask3] }, true,
        allWrites [exampleJob2, exampleJob2]⟩ ∧
    UpsertByIdentifier memDAO (fun s => s.jobs.map Job.ID) (fun s => s.tasks.map Task.entry) ∧
    ([exampleJob2].map Job.ID).length ≠ [exampleJob2, exampleJob2].length ∧
    (([exampleTask3].map Task.entry).length : Int) ≠ totalTasks [exampleJob2, exampleJob2] :=
  ⟨by rfl, memDAO_upsertByIdentifier, by decide, by decide⟩

/-! ## Chat: deleting a room -/

/-- C9: whatever the request, when the DAO's delete reports `ok = false` with no error,
`ChatHandler.DeleteRoom` returns a non-nil error and a nil response and publishes nothing;
when the DAO returns an error, that same error is returned with a nil response and nothing
is published; when the DAO returns `(true, nil)`, the response has `Success = true`, the
error is nil and exactly one event is published, a "DELETE" event for the room of the
request; and a response or an event is produced only in that last case. -/
theorem DeleteRoom_surfaces_violation {σ : Type} (c : ChatHandler σ) (s s1 : σ)
    (req : DeleteRoomRequest) (ok : Bool) (derr : Option Error)
    (h : c.dao.DeleteRoom s req.Room = (s1, ok, derr)) :
    (ok = false → derr = none →
      (c.DeleteRoom s req).err ≠ none ∧ (c.DeleteRoom s req).response = none ∧
        (c.DeleteRoom s req).published = []) ∧
    (∀ e, derr = some e →
      (c.DeleteRoom s req).err = some e ∧ (c.DeleteRoom s req).response = none ∧
        (c.DeleteRoom s req).published = []) ∧
    (ok = true → derr = none →
      (c.DeleteRoom s req).response = some { Success := true } ∧
        (c.DeleteRoom s req).err = none ∧
        (c.DeleteRoom s req).published =
          [(Topic.TopicChatEvent, { Room := req.Room, Details := "DELETE" })]) ∧
    ((c.DeleteRoom s req).response ≠ none ∨ (c.DeleteRoom s req).published ≠ [] →
      ok = true ∧ derr = none) := by
  cases derr with
  | some e => simp [ChatHandler.DeleteRoom, h]
  | none =>
    cases ok with
    | false => simp [ChatHandler.DeleteRoom, h]
    | true => simp [ChatHandler.DeleteRoom, h]

/-- Witness of C9: deleting a room the store does not hold (`ok = false`, no error), a room
without identifier (an error), and a room the store holds (`ok = true`). -/
theorem DeleteRoom_surfaces_violation_witness :
    ((ChatHandler.mk roomsDAO).DeleteRoom ["r1"] { Room := some { Uuid := "r2" } }).err ≠ none ∧
    ((ChatHandler.mk roomsDAO).DeleteRoom ["r1"] { Room := some { Uuid := "r2" } }).response = none ∧
    ((ChatHandler.mk roomsDAO).DeleteRoom ["r1"] { Room := some { Uuid := "r2" } }).published = [] ∧
    ((ChatHandler.mk roomsDAO).DeleteRoom ["r1"] { Room := some { Uuid := "" } }).err =
      some (Error.Storage "no room identifier") ∧
    ((ChatHandler.mk roomsDAO).DeleteRoom ["r1"] { Room := some { Uuid := "r1" } }).response =
      some { Success := true } ∧
    ((ChatHandler.mk roomsDAO).DeleteRoom ["r1"] { Room := some { Uuid := "r1" } }).published =
      [(Topic.TopicChatEvent, { Room := some { Uuid := "r1" }, Details := "DELETE" })] :=
  ⟨((DeleteRoom_surfaces_violation (ChatHandler.mk roomsDAO) ["r1"] ["r1"]
      { Room := some { Uuid := "r2" } } false none (by decide)).1 rfl rfl).1,
    ((DeleteRoom_surfaces_violation (ChatHandler.mk roomsDAO) ["r1"] ["r1"]
      { Room := some { Uuid := "r2" } } false none (by decide)).1 rfl rfl).2.1,
    ((DeleteRoom_surfaces_violation (ChatHandler.mk roomsDAO) ["r1"] ["r1"]
      { Room := some { Uuid := "r2" } } false none (by decide)).1 rfl rfl).2.2,
    ((DeleteRoom_surfaces_violation (ChatHandler.mk roomsDAO) ["r1"] ["r1"]
      { Room := some { Uuid := "" } } false (some (Error.Storage "no room identifier"))
      (by decide)).2.1 _ rfl).1,
    ((DeleteRoom_surfaces_violation (ChatHandler.mk roomsDAO) ["r1"] []
      { Room := some { Uuid := "r1" } } true none (by decide)).2.2.1 rfl rfl).1,
    ((DeleteRoom_surfaces_violation (ChatHandler.mk roomsDAO) ["r1"] []
      { Room := some { Uuid := "r1" } } true none (by decide)).2.2.1 rfl rfl).2.2⟩

/-! ## Redaction preserves structure -/

theorem messageKeeps_reduced (m : ActionMessage) (h : m.noNil = true) :
    MessageKeeps m m.reduced := by
  simp only [ActionMessage.noNil, Bool.and_eq_true] at h
  obtain ⟨⟨h1, h2⟩, h3⟩ := h
  refine ⟨rfl, rfl, by simp [ActionMessage.reduced], by simp [ActionMessage.reduced],
    by simp [ActionMessage.reduced], ?_, ?_, ?_⟩
  · exact forall₂_entry_map stripNode (fun n n1 => n1.Uuid = n.Uuid) (fun _ => rfl) _ h1
  · exact forall₂_entry_map stripUser (fun u u1 => u1.Uuid = u.Uuid) (fun _ => rfl) _ h2
  · exact forall₂_entry_map stripActivity (fun a a1 => a1.Id = a.Id) (fun _ => rfl) _ h3

theorem pointerKeeps_reduced (p : Option ActionMessage)
    (h : p.all ActionMessage.noNil = true) :
    PointerKeeps p (p.map ActionMessage.reduced) := by
  cases p with
  | none => simp [PointerKeeps]
  | some m =>
    have hm : m.noNil = true := by simpa using h
    exact ⟨m.reduced, rfl, messageKeeps_reduced m hm⟩

theorem logs_keep (ls : List (Option ActionLog))
    (h : ls.all (fun l => match l with
      | none => false
      | some a => a.noNil) = true) :
    List.Forall₂ LogKeeps ls (ls.map (Option.map ActionLog.reduced)) := by
  induction ls with
  | nil => exact List.Forall₂.nil
  | cons l rest ih =>
    simp only [List.all_cons, Bool.and_eq_true] at h
    cases l with
    | none => simp at h
    | some a =>
      have ha := h.1
      simp only [ActionLog.noNil, Bool.and_eq_true] at ha
      exact List.Forall₂.cons
        ⟨a, a.reduced, rfl, rfl, rfl, pointerKeeps_reduced _ ha.1, pointerKeeps_reduced _ ha.2⟩
        (ih h.2)

/-- C11: redaction preserves structure. When `stripTaskData` returns, the task identifier,
job identifier, status and status message are unchanged, the task has the same number of
logs in the same order, every log keeps its `ActionID`, a nil input or output message stays
nil, and every message keeps its other fields and the length and order of its `Nodes`,
`Users` and `Activities`, the entry at each position carrying the identifier of the entry
that was there; the same holds of a message when `stripTaskMessage` returns. Both calls
return on a task, respectively a message, without nil entries. -/
theorem redaction_preserves_structure (t t1 : Task) (m m1 : ActionMessage) :
    (stripTaskData t = some t1 →
      t1.ID = t.ID ∧ t1.JobID = t.JobID ∧ t1.Status = t.Status ∧
      t1.StatusMessage = t.StatusMessage ∧
      t1.ActionsLogs.length = t.ActionsLogs.length ∧
      List.Forall₂ LogKeeps t.ActionsLogs t1.ActionsLogs) ∧
    (stripTaskMessage m = some m1 → MessageKeeps m m1) ∧
    (t.noNil = true → ∃ t2, stripTaskData t = some t2) ∧
    (m.noNil = true → ∃ m2, stripTaskMessage m = some m2) := by
  refine ⟨?_, ?_, ?_, ?_⟩
  · intro h
    obtain ⟨a, b⟩ := stripTaskData_some t t1 h
    subst b
    exact ⟨rfl, rfl, rfl, rfl, by simp [Task.reduced], logs_keep _ a⟩
  · intro h
    obtain ⟨a, b⟩ := stripTaskMessage_some m m1 h
    subst b
    exact messageKeeps_reduced m a
  · intro h
    exact ⟨_, stripTaskData_of_noNil t h⟩
  · intro h
    exact ⟨_, stripTaskMessage_of_noNil m h⟩

/-- Witness of C11 on `exampleTask` and `exampleMessage`. -/
theorem redaction_preserves_structure_witness :
    (stripTaskData exampleTask = some exampleTaskReduced ∧
      stripTaskMessage exampleMessage = some exampleMessageReduced) ∧
    (exampleTaskReduced.ID = exampleTask.ID ∧ exampleTaskReduced.JobID = exampleTask.JobID ∧
      exampleTaskReduced.Status = exampleTask.Status ∧
      exampleTaskReduced.StatusMessage = exampleTask.StatusMessage ∧
      exampleTaskReduced.ActionsLogs.length = exampleTask.ActionsLogs.length ∧
      List.Forall₂ LogKeeps exampleTask.ActionsLogs exampleTaskReduced.ActionsLogs) ∧
    MessageKeeps exampleMessage exampleMessageReduced :=
  ⟨⟨by rfl, by rfl⟩,
    (redaction_preserves_structure exampleTask exampleTaskReduced exampleMessage
      exampleMessageReduced).1 (by rfl),
    (redaction_preserves_structure exampleTask exampleTaskReduced exampleMessage
      exampleMessageReduced).2.1 (by rfl)⟩

/-! ## Workspace first run: lemmas -/

theorem recvLoop_eq (stream : List (Option SearchWorkspaceResponse)) :
    recvLoop stream = carriesWorkspace stream := by
  induction stream with
  | nil => rfl
  | cons r rest ih =>
    cases r with
    | none => simpa [recvLoop, carriesWorkspace] using ih
    | some resp =>
      cases hw : resp.Workspace with
      | none => simpa [recvLoop, carriesWorkspace, hw] using ih
      | some w => simp [recvLoop, carriesWorkspace, hw]

theorem createACLs_ok {σ : Type} (env : Services σ) (acls : List ACL) (s s1 : σ)
    (calls : List IdmCall) (h : acceptACLs env s acls = some s1) :
    createACLs env acls s calls = (s1, calls ++ acls.map IdmCall.createACL, none) := by
  induction acls generalizing s calls with
  | nil =>
    simp only [acceptACLs, Option.some.injEq] at h
    simp [createACLs, h]
  | cons acl rest ih =>
    rcases hp : env.CreateACL s acl with ⟨s2, _ | e⟩
    · simp only [acceptACLs, hp] at h
      simp [createACLs, hp, ih s2 _ h]
    · simp [acceptACLs, hp] at h

theorem createACLs_fail {σ : Type} (env : Services σ) (acls pre post : List ACL) (a : ACL)
    (s s1 s2 : σ) (calls : List IdmCall) (e : Error)
    (hsplit : acls = pre ++ a :: post) (hpre : acceptACLs env s pre = some s1)
    (hfail : env.CreateACL s1 a = (s2, some e)) :
    createACLs env acls s calls =
      (s2, calls ++ (pre ++ [a]).map IdmCall.createACL, some e) := by
  subst hsplit
  induction pre generalizing s calls with
  | nil =>
    simp only [acceptACLs, Option.some.injEq] at hpre
    subst hpre
    simp [createACLs, hfail]
  | cons p pre ih =>
    rcases hp : env.CreateACL s p with ⟨s3, _ | e1⟩
    · simp only [acceptACLs, hp] at hpre
      simp [createACLs, hp, ih s3 _ hpre]
    · simp [acceptACLs, hp] at hpre

theorem getLast?_cons_getD {α : Type} (a d : α) (l : List α) :
    ((a :: l).getLast?).getD d = (l.getLast?).getD a := by
  cases l with
  | nil => rfl
  | cons b l1 =>
    rw [List.getLast?_cons_cons]
    cases h : (b :: l1).getLast? with
    | none => simp at h
    | some x => rfl

theorem scanSources_eq (sources : List String) (hasPersonal : Bool) (commonDS : String) :
    scanSources sources hasPersonal commonDS =
      (hasPersonal || decide ("personal" ∈ sources),
        ((sources.filter isOther).getLast?).getD commonDS) := by
  induction sources generalizing hasPersonal commonDS with
  | nil => simp [scanSources]
  | cons s rest ih =>
    by_cases h1 : s = "personal"
    · subst h1
      simp [scanSources, ih, isOther]
    · by_cases h2 : s = "cellsdata" ∨ s = "versions" ∨ s = "thumbnails"
      · have hne : ¬ "personal" = s := fun h => h1 h.symm
        have hio : isOther s = false := by
          rcases h2 with h | h | h <;> subst h <;> rfl
        simp [scanSources, h1, h2, ih, hio, hne]
      · have hne : ¬ "personal" = s := fun h => h1 h.symm
        have hio : isOther s = true := by
          simp only [not_or] at h2
          simp [isOther, h1, h2.1, h2.2.1, h2.2.2]
        simp only [scanSources, h1, h2, if_false, ih, List.filter_cons, hio, if_true,
          List.mem_cons, hne, false_or]
        rw [getLast?_cons_getD]

theorem createWs_found {σ : Type} (env : Services σ) (s s1 : σ) (calls : List IdmCall)
    (ws : Workspace) (rootUuid rootPath : String)
    (rC : Except Error (List (Option SearchWorkspaceResponse)))
    (h : env.SearchWorkspace s { Slug := ws.Slug, Limit := 1 } = (s1, rC))
    (hf : searchFound rC = true) :
    createWs env s calls ws rootUuid rootPath =
      ⟨none, s1, calls ++ [IdmCall.search { Slug := ws.Slug, Limit := 1 }]⟩ := by
  cases rC with
  | error e => simp [searchFound] at hf
  | ok stream =>
    simp only [searchFound] at hf
    simp [createWs, h, recvLoop_eq, hf]

theorem createWs_not_found {σ : Type} (env : Services σ) (s s1 : σ) (calls : List IdmCall)
    (ws : Workspace) (rootUuid rootPath : String)
    (rC : Except Error (List (Option SearchWorkspaceResponse)))
    (h : env.SearchWorkspace s { Slug := ws.Slug, Limit := 1 } = (s1, rC))
    (hf : searchFound rC = false) :
    createWs env s calls ws rootUuid rootPath =
      match env.CreateWorkspace s1 (prepared env ws) with
      | (s2, some e) =>
        ⟨some e, s2, calls ++ [IdmCall.search { Slug := ws.Slug, Limit := 1 }] ++
          [IdmCall.createWorkspace (prepared env ws)]⟩
      | (s2, none) =>
        match createACLs env (rootACLs (prepared env ws) rootUuid rootPath) s2
            (calls ++ [IdmCall.search { Slug := ws.Slug, Limit := 1 }] ++
              [IdmCall.createWorkspace (prepared env ws)]) with
        | (s3, calls3, e) => ⟨e, s3, calls3⟩ := by
  cases rC with
  | error e => simp [createWs, h, prepared]
  | ok stream =>
    simp only [searchFound] at hf
    simp [createWs, h, recvLoop_eq, hf, prepared]

/-! ## Workspace first run: `createWs` avoids duplicates -/

/-- C13: `createWs` first searches the workspace by `ws.Slug`. If the search succeeds and a
response of its stream carries a workspace, it returns nil after that one call, without
calling `CreateWorkspace` or `CreateACL`. Otherwise (no response carries a workspace, or the
search call fails) it calls `CreateWorkspace` once, returning its error if it fails, and
then `CreateACL` for the four ACLs of the root node in the order read, write, workspace-root
path, recycle-root, stopping at the first one that fails and returning its error, and
returning nil when all four are accepted. -/
theorem createWs_avoids_duplicates {σ : Type} (env : Services σ) (s s1 : σ)
    (calls : List IdmCall) (ws : Workspace) (rootUuid rootPath : String)
    (rC : Except Error (List (Option SearchWorkspaceResponse)))
    (h : env.SearchWorkspace s { Slug := ws.Slug, Limit := 1 } = (s1, rC)) :
    (searchFound rC = true →
      createWs env s calls ws rootUuid rootPath =
        ⟨none, s1, calls ++ [IdmCall.search { Slug := ws.Slug, Limit := 1 }]⟩) ∧
    (searchFound rC = false →
      (∀ s2 e, env.CreateWorkspace s1 (prepared env ws) = (s2, some e) →
        createWs env s calls ws rootUuid rootPath =
          ⟨some e, s2, calls ++ [IdmCall.search { Slug := ws.Slug, Limit := 1 },
            IdmCall.createWorkspace (prepared env ws)]⟩) ∧
      (∀ s2 s3, env.CreateWorkspace s1 (prepared env ws) = (s2, none) →
        acceptACLs env s2 (rootACLs (prepared env ws) rootUuid rootPath) = some s3 →
        createWs env s calls ws rootUuid rootPath =
          ⟨none, s3, calls ++ [IdmCall.search { Slug := ws.Slug, Limit := 1 },
            IdmCall.createWorkspace (prepared env ws)] ++
            (rootACLs (prepared env ws) rootUuid rootPath).map IdmCall.createACL⟩) ∧
      (∀ s2 s3 s4 pre a post e, env.CreateWorkspace s1 (prepared env ws) = (s2, none) →
        rootACLs (prepared env ws) rootUuid rootPath = pre ++ a :: post →
        acceptACLs env s2 pre = some s3 → env.CreateACL s3 a = (s4, some e) →
        createWs env s calls ws rootUuid rootPath =
          ⟨some e, s4, calls ++ [IdmCall.search { Slug := ws.Slug, Limit := 1 },
            IdmCall.createWorkspace (prepared env ws)] ++
            (pre ++ [a]).map IdmCall.createACL⟩)) ∧
    (rootACLs (prepared env ws) rootUuid rootPath).map (fun a => (a.NodeID, a.Action)) =
      [(rootUuid, some ACLAction.AclRead), (rootUuid, some ACLAction.AclWrite),
        (rootUuid, some (ACLAction.wsroot rootPath)), (rootUuid, some ACLAction.AclRecycleRoot)] := by
  refine ⟨fun hf => createWs_found env s s1 calls ws rootUuid rootPath rC h hf, fun hf => ?_, rfl⟩
  have key := createWs_not_found env s s1 calls ws rootUuid rootPath rC h hf
  refine ⟨?_, ?_, ?_⟩
  · intro s2 e hc
    rw [key, hc]
    simp
  · intro s2 s3 hc hacc
    rw [key, hc]
    simp only [createACLs_ok env _ s2 s3 _ hacc]
    simp
  · intro s2 s3 s4 pre a post e hc hsplit hpre hfail
    rw [key, hc]
    simp only [createACLs_fail env _ pre post a s2 s3 s4 _ e hsplit hpre hfail]
    simp

/-- Witness of C13: the workspace is found and nothing is created; and, on an empty service
with room for two creations, the workspace and the read ACL are created and the write ACL is
rejected. -/
theorem createWs_avoids_duplicates_witness :
    createWs memServices stateWithPersonal [] examplePersonal "my-files" "my-files" =
      ⟨none, stateWithPersonal, [IdmCall.search { Slug := "personal-files", Limit := 1 }]⟩ ∧
    createWs memServices stateRoomTwo [] examplePersonal "my-files" "my-files" =
      ⟨some (Error.Storage "no room"),
        { workspaces := [prepared memServices examplePersonal]
          acls := [{ NodeID := "my-files", Action := some ACLAction.AclRead,
                     RoleID := "ROOT_GROUP", WorkspaceID := "u1" }]
          uuids := ["u1", "u2"], room := 0 },
        [IdmCall.search { Slug := "personal-files", Limit := 1 },
          IdmCall.createWorkspace (prepared memServices examplePersonal),
          IdmCall.createACL { NodeID := "my-files", Action := some ACLAction.AclRead,
                              RoleID := "ROOT_GROUP", WorkspaceID := "u1" },
          IdmCall.createACL { NodeID := "my-files", Action := some ACLAction.AclWrite,
                              RoleID := "ROOT_GROUP", WorkspaceID := "u1" }]⟩ :=
  ⟨(createWs_avoids_duplicates memServices stateWithPersonal stateWithPersonal []
      examplePersonal "my-files" "my-files"
      (memServices.SearchWorkspace stateWithPersonal { Slug := "personal-files", Limit := 1 }).2
      rfl).1 (by decide),
    ((createWs_avoids_duplicates memServices stateRoomTwo stateRoomTwo []
      examplePersonal "my-files" "my-files"
      (memServices.SearchWorkspace stateRoomTwo { Slug := "personal-files", Limit := 1 }).2
      rfl).2.1 (by decide)).2.2
      { workspaces := [prepared memServices examplePersonal]
        uuids := ["u1", "u2"], room := 1 }
      { workspaces := [prepared memServices examplePersonal]
        acls := [{ NodeID := "my-files", Action := some ACLAction.AclRead,
                   RoleID := "ROOT_GROUP", WorkspaceID := "u1" }]
        uuids := ["u1", "u2"], room := 0 }
      { workspaces := [prepared memServices examplePersonal]
        acls := [{ NodeID := "my-files", Action := some ACLAction.AclRead,
                   RoleID := "ROOT_GROUP", WorkspaceID := "u1" }]
        uuids := ["u1", "u2"], room := 0 }
      [{ NodeID := "my-files", Action := some ACLAction.AclRead,
         RoleID := "ROOT_GROUP", WorkspaceID := "u1" }]
      { NodeID := "my-files", Action := some ACLAction.AclWrite,
        RoleID := "ROOT_GROUP", WorkspaceID := "u1" }
      [{ NodeID := "my-files", Action := some (ACLAction.wsroot "my-files"), WorkspaceID := "u1" },
       { NodeID := "my-files", Action := some ACLAction.AclRecycleRoot, WorkspaceID := "u1" }]
      (Error.Storage "no room") rfl rfl rfl rfl⟩

/-! ## Workspace first run: which workspaces `FirstRun` attempts to create -/

theorem result_eta {σ : Type} (r : IdmResult σ) :
    (match r with
      | ⟨some er, s3, calls3⟩ => (⟨some er, s3, calls3⟩ : IdmResult σ)
      | ⟨none, s3, calls3⟩ => ⟨none, s3, calls3⟩) = r := by
  rcases r with ⟨_ | e, st, c⟩ <;> rfl

theorem runPlanned_one {σ : Type} (env : Services σ) (a : Attempt) (s : σ)
    (calls : List IdmCall) : runPlanned env [a] s calls = attempt env a s calls := by
  simp only [runPlanned]
  rcases h : attempt env a s calls with ⟨_ | e, st, c⟩ <;> rfl

theorem FirstRun_eq_runPlanned {σ : Type} (env : Services σ) (sources : List String) (s : σ) :
    FirstRun env sources s = runPlanned env (planned sources) s [] := by
  unfold FirstRun planned lastOther
  rw [scanSources_eq]
  simp only [Bool.false_or]
  by_cases hP : "personal" ∈ sources
  · simp only [hP, decide_True, Bool.not_true, Bool.false_and, if_true, if_false,
      Bool.false_eq_true]
    cases hl : (List.filter isOther sources).getLast? with
    | none =>
      simp only [Option.getD_none, List.append_nil, ne_eq, not_true_eq_false, if_false]
      rw [runPlanned_one]
      simp only [attempt]
      rcases hr : createWs env (env.uuidNew s).1 []
        { UUID := (env.uuidNew s).2, Label := "Personal Files",
          Description := "User personal data", Slug := "personal-files" } "my-files" "my-files"
        with ⟨_ | e, st, c⟩
      · simp [personalAttempt, hr]
      · simp [personalAttempt, hr]
    | some d =>
      simp only [Option.getD_some]
      by_cases hd : d = ""
      · subst hd
        simp only [ne_eq, not_true_eq_false, if_false, if_true, List.append_nil]
        rw [runPlanned_one]
        simp only [attempt]
        rcases hr : createWs env (env.uuidNew s).1 []
          { UUID := (env.uuidNew s).2, Label := "Personal Files",
            Description := "User personal data", Slug := "personal-files" } "my-files"
          "my-files" with ⟨_ | e, st, c⟩
        · simp [personalAttempt, hr]
        · simp [personalAttempt, hr]
      · simp only [ne_eq, hd, not_false_eq_true, if_true, if_false, List.singleton_append,
          runPlanned, attempt]
        rcases hr : createWs env (env.uuidNew s).1 []
          { UUID := (env.uuidNew s).2, Label := "Personal Files",
            Description := "User personal data", Slug := "personal-files" } "my-files"
          "my-files" with ⟨_ | e, st, c⟩
        · simp only [personalAttempt, hr, commonAttempt]
          rw [result_eta]
          rcases hr2 : createWs env (env.uuidNew st).1 c
            { UUID := (env.uuidNew st).2, Label := "Common Files",
              Description := "Data shared by all users", Slug := "common-files" }
            ("DATASOURCE:" ++ d) d with ⟨_ | e2, st2, c2⟩ <;> rfl
        · simp [personalAttempt, hr]
  · simp only [hP, decide_False, Bool.not_false, Bool.true_and, if_false, List.nil_append,
      Bool.false_eq_true]
    cases hl : (List.filter isOther sources).getLast? with
    | none => simp [runPlanned]
    | some d =>
      simp only [Option.getD_some]
      by_cases hd : d = ""
      · subst hd
        simp [runPlanned]
      · simp only [beq_iff_eq, hd, if_false, ne_eq, not_false_eq_true, if_true]
        rw [runPlanned_one, result_eta]
        rfl

theorem lastOther_mem (sources : List String) (d : String) (h : lastOther sources = some d) :
    d ∈ sources ∧ isOther d = true := by
  unfold lastOther at h
  have hm : d ∈ sources.filter isOther := List.mem_of_getLast?_eq_some h
  exact List.mem_filter.1 hm

theorem lastOther_isSome_iff (sources : List String) :
    (∃ ds, lastOther sources = some ds) ↔ ∃ n ∈ sources, isOther n = true := by
  constructor
  · rintro ⟨ds, h⟩
    exact ⟨ds, (lastOther_mem sources ds h).1, (lastOther_mem sources ds h).2⟩
  · rintro ⟨n, hn, ho⟩
    cases h : lastOther sources with
    | some ds => exact ⟨ds, rfl⟩
    | none =>
      unfold lastOther at h
      have hnil : sources.filter isOther = [] := List.getLast?_eq_none_iff.1 h
      have hmem : n ∈ sources.filter isOther := List.mem_filter.2 ⟨hn, ho⟩
      rw [hnil] at hmem
      simp at hmem

theorem planned_eq_plannedAsStated (sources : List String) (hne : "" ∉ sources) :
    planned sources = plannedAsStated sources := by
  unfold planned plannedAsStated
  cases h : lastOther sources with
  | none => rfl
  | some d =>
    have hd : ¬ d = "" := by
      intro hd
      exact hne (hd ▸ (lastOther_mem sources d h).1)
    simp [hd]

theorem commonAttempt_ne_personal (ds : String) : ¬ commonAttempt ds = personalAttempt := by
  simp [personalAttempt, commonAttempt]

theorem commonAttempt_inj (ds d : String) : commonAttempt ds = commonAttempt d ↔ ds = d := by
  constructor
  · intro h
    have := congrArg Attempt.rootPath h
    simpa [commonAttempt] using this
  · intro h
    rw [h]

theorem common_mem_plannedAsStated (sources : List String) (ds : String) :
    commonAttempt ds ∈ plannedAsStated sources ↔ lastOther sources = some ds := by
  unfold plannedAsStated
  have hne := commonAttempt_ne_personal ds
  cases hl : lastOther sources with
  | none => by_cases hP : "personal" ∈ sources <;> simp [hP, hne]
  | some d =>
    by_cases hP : "personal" ∈ sources
    · simp only [hP, if_true, List.mem_append, List.mem_singleton, hne, false_or,
        commonAttempt_inj, Option.some.injEq]
      exact eq_comm
    · simp only [hP, if_false, List.nil_append, List.mem_singleton, commonAttempt_inj,
        Option.some.injEq]
      exact eq_comm

/-- C12: for every list of configured source names (a configured source has a name: no
entry is the empty string, which the code itself reads as "no source"), `FirstRun` makes
exactly the attempts of `plannedAsStated`, in order, stopping at the first that fails. It
attempts to create the "Personal Files" workspace (slug personal-files, root my-files) if
and only if "personal" occurs in the list; it attempts to create the "Common Files"
workspace (slug common-files) if and only if some name other than "personal", "cellsdata",
"versions" and "thumbnails" occurs, rooted at "DATASOURCE:" followed by the last such name.
When neither holds it returns nil without any workspace or ACL call, and a failure creating
the personal workspace returns that error with only the calls of that attempt: the common
workspace is not attempted. -/
theorem FirstRun_attempts {σ : Type} (env : Services σ) (sources : List String) (s : σ)
    (hne : "" ∉ sources) :
    FirstRun env sources s = runPlanned env (plannedAsStated sources) s [] ∧
    (personalAttempt ∈ plannedAsStated sources ↔ "personal" ∈ sources) ∧
    ((∃ ds, commonAttempt ds ∈ plannedAsStated sources) ↔ ∃ n ∈ sources, isOther n = true) ∧
    (∀ ds, commonAttempt ds ∈ plannedAsStated sources ↔ lastOther sources = some ds) ∧
    ("personal" ∉ sources → (∀ n ∈ sources, isOther n = false) →
      FirstRun env sources s = ⟨none, s, []⟩) ∧
    ("personal" ∈ sources → ∀ e, (attempt env personalAttempt s []).err = some e →
      FirstRun env sources s =
        ⟨some e, (attempt env personalAttempt s []).state,
          (attempt env personalAttempt s []).calls⟩) := by
  have main : FirstRun env sources s = runPlanned env (plannedAsStated sources) s [] := by
    rw [FirstRun_eq_runPlanned, planned_eq_plannedAsStated sources hne]
  refine ⟨main, ?_, ?_, common_mem_plannedAsStated sources, ?_, ?_⟩
  · unfold plannedAsStated
    by_cases hP : "personal" ∈ sources
    · simp [hP]
    · cases hl : lastOther sources with
      | none => simp [hP]
      | some d =>
        have := commonAttempt_ne_personal d
        simp only [hP, if_false, List.nil_append, List.mem_singleton, iff_false]
        exact fun h => this h.symm
  · rw [← lastOther_isSome_iff]
    constructor
    · rintro ⟨ds, h⟩
      exact ⟨ds, (common_mem_plannedAsStated sources ds).1 h⟩
    · rintro ⟨ds, h⟩
      exact ⟨ds, (common_mem_plannedAsStated sources ds).2 h⟩
  · intro hP hO
    have hl : lastOther sources = none := by
      cases h : lastOther sources with
      | none => rfl
      | some d =>
        have := lastOther_mem sources d h
        rw [hO d this.1] at this
        simp at this
    rw [main]
    unfold plannedAsStated
    simp only [hP, if_false, hl, List.append_nil]
    rfl
  · intro hP e he
    rw [main]
    unfold plannedAsStated
    simp only [hP, if_true, List.singleton_append, runPlanned, he]

/-- Witness of C12: with only excluded names nothing is called; with "personal" and a
datasource on a service without room, the personal attempt fails at `CreateWorkspace` and
the common workspace is not attempted; with room, the personal workspace and then the common
workspace rooted at the datasource are attempted. -/
theorem FirstRun_attempts_witness :
    FirstRun memServices ["cellsdata", "versions", "thumbnails"] stateRoomTwo =
      ⟨none, stateRoomTwo, []⟩ ∧
    FirstRun memServices ["personal", "pydiods1"] stateNoRoom =
      ⟨some (Error.Storage "no room"), { uuids := ["u2"], room := 0 },
        [IdmCall.search { Slug := "personal-files", Limit := 1 },
          IdmCall.createWorkspace (prepared memServices examplePersonal)]⟩ ∧
    FirstRun memServices ["personal", "cellsdata", "pydiods1"] stateWithPersonal =
      runPlanned memServices [personalAttempt, commonAttempt "pydiods1"] stateWithPersonal [] :=
  ⟨(FirstRun_attempts memServices ["cellsdata", "versions", "thumbnails"] stateRoomTwo
      (by decide)).2.2.2.2.1 (by decide) (by decide),
    (FirstRun_attempts memServices ["personal", "pydiods1"] stateNoRoom (by decide)).2.2.2.2.2
      (by decide) (Error.Storage "no room") (by rfl),
    (FirstRun_attempts memServices ["personal", "cellsdata", "pydiods1"] stateWithPersonal
      (by decide)).1⟩

/-- Remark on the empty name: `FirstRun` keeps the last other name in `commonDS` and reads
the empty string as "no source", so a list whose last other name is empty gives no common
workspace; `planned` describes what is attempted on such a list. -/
theorem FirstRun_empty_source_name :
    lastOther ["pydiods1", ""] = some "" ∧
    planned ["pydiods1", ""] = [] ∧
    FirstRun memServices ["pydiods1", ""] stateRoomTwo = ⟨none, stateRoomTwo, []⟩ :=
  ⟨by decide, by decide, by rfl⟩

end Cells
